import Mathlib

/-!
Verification of the onnxruntime float8 codec, tree-ensemble compiler/evaluator
and Cast kernel construction, as a shallow embedding in Lean 4.

Sources embedded:
* `include/onnxruntime/core/framework/float8.h` (FloatE4M3 / FloatE5M2)
* `onnxruntime/core/providers/cpu/ml/tree_ensemble_common.h`
  (TreeEnsembleCommon::Init / AddNodes / CheckIfSubtreesAreEqual /
   ProcessTreeNodeLeave, SetMembershipCheck, UpdateThreshold)
* `onnxruntime/core/providers/cpu/tensor/cast_op.cc` (Cast::Cast)

Machine floats are embedded as their bit patterns (`Nat`).  Where the C++
code performs IEEE-754 comparisons or classifications, an exact value
semantics `FV` is used: every finite binary32 value is an integer multiple
of 2^(-149), so a finite value is carried as that integer (`FV.num z`
denotes the real value z·2^(-149)); NaN and the two infinities are separate
constructors.  This keeps all value computations in exact integer
arithmetic.
-/

namespace OrtSpec

/-- Exact value of an IEEE-754 binary32 datum: NaN, a signed infinity, or a
finite value given as an integer multiple of 2^(-149) (`num z` denotes
z·2^(-149); zero and negative zero both map to `num 0`, which is faithful to
IEEE comparison semantics). -/
inductive FV where
  | nan : FV
  | inf : Bool → FV  -- `inf true` is negative infinity
  | num : Int → FV
deriving DecidableEq, Repr

namespace FV

/-- IEEE `<=`: false whenever an operand is NaN. -/
def leb : FV → FV → Bool
  | .nan, _ => false
  | _, .nan => false
  | .inf true, _ => true
  | .inf false, .inf false => true
  | .inf false, _ => false
  | .num _, .inf b => !b
  | .num a, .num b => a ≤ b

/-- IEEE `<`: false whenever an operand is NaN. -/
def ltb : FV → FV → Bool
  | .nan, _ => false
  | _, .nan => false
  | .inf true, .inf true => false
  | .inf true, _ => true
  | .inf false, _ => false
  | .num _, .inf b => !b
  | .num a, .num b => a < b

/-- IEEE `==`: false whenever an operand is NaN. -/
def eqb : FV → FV → Bool
  | .nan, _ => false
  | _, .nan => false
  | .inf a, .inf b => a = b
  | .num a, .num b => a = b
  | _, _ => false

/-- IEEE `!=` (note: true when an operand is NaN). -/
def neb (a b : FV) : Bool := !(eqb a b)

/-- IEEE `>=`. -/
def geb (a b : FV) : Bool := leb b a

/-- IEEE `>`. -/
def gtb (a b : FV) : Bool := ltb b a

/-- `std::isnan`. -/
def isNaN : FV → Bool
  | .nan => true
  | _ => false

end FV

/-- The scaling factor of `FV.num`: `FV.num z` denotes z·2^(-149). -/
def fvScale : Nat := 2 ^ 149

/-- Exact value of a binary32 bit pattern (sign / 8 exponent bits / 23
mantissa bits; subnormal value m·2^(-149), normal value
(2^23+m)·2^(e-150)·2^... i.e. (2^23+m)·2^(e-1) in the 2^(-149) scale). -/
def f32AsFV (b : Nat) : FV :=
  let s := (b >>> 31) &&& 1
  let e := (b >>> 23) &&& 255
  let m := b &&& 0x7FFFFF
  if e = 255 then (if m = 0 then .inf (s = 1) else .nan)
  else
    let mag : Nat := if e = 0 then m else (2 ^ 23 + m) * 2 ^ (e - 1)
    .num (if s = 1 then -(mag : Int) else (mag : Int))

/-! ## The float8 codec (float8.h)

Each conversion is embedded as a function on bit patterns, mirroring the
non-CUDA branch of the source line by line.  The `val` variable in the C++
code is a `uint8_t`, so the `val += 1` rounding increments are taken mod 256.
-/

/-- `FloatE4M3::FloatE4M3(float)` (float8.h lines 71-119): narrowing
conversion binary32 → E4M3, on bit patterns. -/
def e4m3FromBits (b : Nat) : Nat :=
  let sign := (b &&& 0x80000000) >>> 24
  if b &&& 0x7fc00000 = 0x7fc00000 then sign ||| 0xff
  else
    let e := (b &&& 0x7F800000) >>> 23
    let m := b &&& 0x007FFFFF
    if e = 0 then sign
    else if e < 117 then sign
    else if e < 118 then
      let v := sign ||| 1
      if (m >>> 23) &&& 1 = 1 then (v + 1) % 256 else v
    else if e < 121 then
      let d := 120 - e
      let v := (sign ||| (1 <<< (2 - d))) ||| (m >>> (21 + d))
      if (m >>> (20 + d)) &&& 1 = 1 then (v + 1) % 256 else v
    else if e < 136 then
      let ex := e - 120
      let v := if ex = 0 then (sign ||| 0x4) ||| (m >>> 21)
               else (sign ||| (ex <<< 3)) ||| (m >>> 20)
      if m &&& 0x80000 ≠ 0 then (v + 1) % 256 else v
    else sign ||| 126

/-- `FloatE4M3::ToFloat` (float8.h lines 121-167): widening conversion
E4M3 → binary32, on bit patterns.  The three `if ((mant & 0x4) == 0)`
normalization steps of the source are unrolled below (each pair is the
current mantissa and exponent). -/
def e4m3ToBits (v : Nat) : Nat :=
  if v = 255 then 0xffc00000
  else if v = 127 then 0x7fc00000
  else
    let expo := (v &&& 0x78) >>> 3
    let mant := v &&& 0x07
    let sign := v &&& 0x80
    let res := sign <<< 24
    if expo = 0 then
      if mant > 0 then
        let e0 := 0x7F - 7
        let p1 := if mant &&& 0x4 = 0 then ((mant &&& 0x3) <<< 1, e0 - 1) else (mant, e0)
        let p2 := if p1.1 &&& 0x4 = 0 then ((p1.1 &&& 0x3) <<< 1, p1.2 - 1) else p1
        let p3 := if p2.1 &&& 0x4 = 0 then ((p2.1 &&& 0x3) <<< 1, p2.2 - 1) else p2
        (res ||| ((p3.1 &&& 0x3) <<< 21)) ||| (p3.2 <<< 23)
      else res
    else (res ||| (mant <<< 20)) ||| ((expo + 0x7F - 0x7) <<< 23)

/-- `FloatE5M2::FloatE5M2(float)` (float8.h lines 226-272): narrowing
conversion binary32 → E5M2, on bit patterns. -/
def e5m2FromBits (b : Nat) : Nat :=
  let sign := (b &&& 0x80000000) >>> 24
  if b &&& 0x7fc00000 = 0x7fc00000 then sign ||| 0xff
  else
    let e := (b &&& 0x7F800000) >>> 23
    let m := b &&& 0x007FFFFF
    if e = 0 then sign
    else if e < 110 then sign
    else if e < 111 then
      let v := sign ||| 1
      if (m >>> 23) &&& 1 = 1 then (v + 1) % 256 else v
    else if e < 113 then
      let d := 112 - e
      let v := (sign ||| (1 <<< (1 - d))) ||| (m >>> (22 + d))
      if (m >>> (21 + d)) &&& 1 = 1 then (v + 1) % 256 else v
    else if e < 144 then
      let ex := e - 112
      let v := (sign ||| (ex <<< 2)) ||| (m >>> 21)
      if m &&& 0x100000 ≠ 0 then (v + 1) % 256 else v
    else if e = 255 ∧ m = 0 then sign ||| 124
    else sign ||| 123

/-- `FloatE5M2::ToFloat` (float8.h lines 274-324): widening conversion
E5M2 → binary32, on bit patterns.  The two `if ((mant & 0x2) == 0)`
normalization steps of the source are unrolled below. -/
def e5m2ToBits (v : Nat) : Nat :=
  if v ≥ 253 then 0xffc00000
  else if v ≥ 125 ∧ v ≤ 127 then 0x7fc00000
  else if v = 252 then 0xff800000
  else if v = 124 then 0x7f800000
  else
    let expo := (v &&& 0x7C) >>> 2
    let mant := v &&& 0x03
    let sign := v &&& 0x80
    let res := sign <<< 24
    if expo = 0 then
      if mant > 0 then
        let e0 := 0x7F - 15
        let p1 := if mant &&& 0x2 = 0 then ((mant &&& 0x1) <<< 1, e0 - 1) else (mant, e0)
        let p2 := if p1.1 &&& 0x2 = 0 then ((p1.1 &&& 0x1) <<< 1, p1.2 - 1) else p1
        (res ||| ((p2.1 &&& 0x1) <<< 22)) ||| (p2.2 <<< 23)
      else res
    else (res ||| (mant <<< 21)) ||| ((expo + 0x7F - 15) <<< 23)

/-- Scaled magnitude (value·2^149) of the binary32 image of a finite E4M3
byte; 0 for the NaN slots (used only for finite bytes). -/
def e4m3Mag (v : Nat) : Int :=
  match f32AsFV (e4m3ToBits v) with
  | .num z => z
  | _ => 0

/-- Scaled magnitude of the binary32 image of a finite E5M2 byte. -/
def e5m2Mag (v : Nat) : Int :=
  match f32AsFV (e5m2ToBits v) with
  | .num z => z
  | _ => 0

/-- Structural-recursion base-2 logarithm (fuel-driven so that kernel
reduction works; `log2F 200 n` is `Nat.log2 n` for every `n < 2^200`). -/
def log2F : Nat → Nat → Nat
  | 0, _ => 0
  | fuel + 1, n => if n ≥ 2 then log2F fuel (n / 2) + 1 else 0

/-- Binary32 bit pattern of the non-negative value n·2^(-149), for n whose
value is exactly representable (used to build concrete test inputs; each use
is validated in-statement by a `f32AsFV` conjunct). -/
def natToF32bits (n : Nat) : Nat :=
  if n < 2 ^ 23 then n
  else
    let L := log2F 200 n
    ((L - 22) <<< 23) ||| ((n % 2 ^ L) >>> (L - 23))

/-- Bit pattern of the exact midpoint of the values of two adjacent positive
finite float8 bytes, given their scaled magnitudes (their sum is always
even). -/
def midBits (z1 z2 : Int) : Nat := natToF32bits (((z1 + z2) / 2).toNat)

/-- Bit pattern of the point a quarter of the way from the value `z1` to the
value `z2` (adjacent float8 magnitudes; the gap is divisible by 4). -/
def quarterBits (z1 z2 : Int) : Nat := natToF32bits ((z1 + (z2 - z1) / 4).toNat)

/-! ## The tree-ensemble compiler and evaluator (tree_ensemble_common.h)

The embedding below instantiates the template at `ThresholdType = float`
and `InputType = float` (so `BITCOUNT(ThresholdType) = 32`), the
configuration exercised by the ONNX `TreeEnsembleRegressor` float kernel.
A `float` field is carried as its 32-bit pattern (`Nat`); wherever the C++
code compares floats, the exact value semantics `f32AsFV` is applied, and
`bit_cast` of a float field to an integer is the identity on the pattern.

`NODE_MODE`, `MissingTrack`, `TreeNodeElement.mode()/is_not_leaf()` and
`TreeNodeElementId::operator<` live in `tree_ensemble_aggregator.h`, which
is not among the sources.  Modelled from the spec: `flags` packs the split
mode in its low bits and `missing_goes_true` in its high bit; it is
embedded as the two fields `mode` and `missingTrue`, `mode()` returns the
mode part, `is_not_leaf()` tests `mode ≠ LEAF`, equality of `flags` with a
bare `NODE_MODE` constant (AddNodes line 470) means `mode = that constant ∧
missingTrue = false`, and `TreeNodeElementId` compares lexicographically
(tree id first). -/

/-- The split mode of a node (low bits of `flags`). -/
inductive NodeMode where
  | LEAF | BRANCH_LEQ | BRANCH_LT | BRANCH_GTE | BRANCH_GT
  | BRANCH_EQ | BRANCH_NEQ | BRANCH_MEMBER
deriving DecidableEq, Repr

/-- `TreeNodeElement<float>`: a compiled node.  `value_or_unique_weight`
is the 32-bit pattern of the float field (a threshold, a `BRANCH_MEMBER`
bitmask, or a leaf's unique weight); `truenode` is the index in `nodes_`
of the true child (the C++ stores a pointer); `weight`/`n_weights` are the
leaf weight-table data of the union. -/
structure TreeNodeElement where
  mode : NodeMode := .LEAF
  missingTrue : Bool := false
  feature_id : Int := 0
  value_or_unique_weight : Nat := 0
  truenode : Nat := 0
  weight : Nat := 0
  n_weights : Nat := 0
deriving DecidableEq, Repr

instance : Inhabited TreeNodeElement := ⟨{}⟩

/-- `fvScale` as an integer (the scaled value of 1.0f). -/
def fvScaleZ : Int := (fvScale : Int)

/-- Scaled finite value of an `FV` (0 for NaN/infinity; used only under
guards that exclude those). -/
def fvNum : FV → Int
  | .num z => z
  | _ => 0

/-- `static_cast<uint32_t>` / `static_cast<int64_t>` of a float value that
the surrounding `CANMASK` guard has certified to be a positive integer. -/
def castU (z : Int) : Nat := (z / fvScaleZ).toNat

/-- `CANMASK(v, T)` (tree_ensemble_common.h line 416) for a threshold type
of bit width `W`: `v >= 1 && v <= W && v == std::floor(v)`. -/
def canMaskW (W : Nat) (v : FV) : Bool :=
  match v with
  | .num z => fvScaleZ ≤ z && z ≤ (W : Int) * fvScaleZ && z % fvScaleZ = 0
  | _ => false

/-- `CANMASK` at the instantiated width 32 (`ThresholdType = float`). -/
def canMask (v : FV) : Bool := canMaskW 32 v

/-- `UpdateThreshold(float val, float& mask)` (lines 410-413): OR the bit
`1 << (uint32(val) - 1)` into the mask pattern (`bit_cast` is the identity
on patterns in this embedding).  `z` is the scaled value of `val`. -/
def updateThreshold (z : Int) (mask : Nat) : Nat := mask ||| (1 <<< (castU z - 1))

/-- `SetMembershipCheck(val, mask)` (lines 794-798), parametric in the mask
width `W`: `CANMASK(val, T2) && ((1ll << (val_as_int - 1)) & bit_cast_int(mask)) != 0`. -/
def setMembershipCheckW (W : Nat) (val : FV) (mask : Nat) : Bool :=
  canMaskW W val && ((1 <<< (castU (fvNum val) - 1)) &&& mask ≠ 0)

/-- `SetMembershipCheck` at width 32. -/
def setMembershipCheck (val : FV) (mask : Nat) : Bool := setMembershipCheckW 32 val mask

/-- The preprocessed inputs handed to `AddNodes` by `Init` (the argument
list of `TreeEnsembleCommon::AddNodes`, lines 419-425, with
`nodes_values_as_tensor`/`target_class_weights_as_tensor` empty so the
`float` vectors are in effect). -/
structure PreIn where
  cmodes : Array NodeMode := #[]
  truenode_ids : Array Nat := #[]
  falsenode_ids : Array Nat := #[]
  nodes_featureids : Array Int := #[]
  node_values : Array Nat := #[]          -- binary32 patterns
  nodes_missing_value_tracks_true : Array Int := #[]
  node_tree_ids : Array (Int × Int) := #[]
  target_class_weights : Array Nat := #[] -- binary32 patterns
  indices : Array ((Int × Int) × Nat) := #[]
deriving Repr

/-- Lexicographic `<` on `std::pair<TreeNodeElementId, uint32_t>`. -/
def idxLt (a b : (Int × Int) × Nat) : Bool :=
  a.1.1 < b.1.1 ||
    (a.1.1 = b.1.1 && (a.1.2 < b.1.2 || (a.1.2 = b.1.2 && a.2 < b.2)))

/-- `std::lower_bound(indices.begin(), indices.end(), key)`: index of the
first element not less than `key` (`indices.size` plays the role of
`end()`). -/
def lowerBound (indices : Array ((Int × Int) × Nat)) (key : (Int × Int) × Nat) : Nat :=
  match indices.findIdx? (fun e => ¬ idxLt e key) with
  | some j => j
  | none => indices.size

/-- `CheckIfSubtreesAreEqual` (lines 377-403), fuel-driven (the C++
recursion is unbounded on cyclic inputs; fuel exhaustion returns `false`).
Dereferencing `lower_bound`'s result when it is `end()` is undefined
behaviour in the source; the model reads weight pattern 0 there. -/
def checkIfSubtreesAreEqual (p : PreIn) : Nat → Nat → Nat → Bool
  | 0, _, _ => false
  | fuel + 1, left_id, right_id =>
    if p.cmodes.getD left_id .LEAF ≠ p.cmodes.getD right_id .LEAF
        || p.nodes_featureids.getD left_id 0 ≠ p.nodes_featureids.getD right_id 0
        || FV.neb (f32AsFV (p.node_values.getD left_id 0))
                  (f32AsFV (p.node_values.getD right_id 0)) then
      false
    else if p.cmodes.getD left_id .LEAF = .LEAF then
      let lt := (p.indices.getD (lowerBound p.indices (p.node_tree_ids.getD left_id (0, 0), 0))
                  ((0, 0), 0)).2
      let rt := (p.indices.getD (lowerBound p.indices (p.node_tree_ids.getD right_id (0, 0), 0))
                  ((0, 0), 0)).2
      FV.eqb (f32AsFV (p.target_class_weights.getD lt 0))
             (f32AsFV (p.target_class_weights.getD rt 0))
    else
      checkIfSubtreesAreEqual p fuel (p.falsenode_ids.getD left_id 0)
          (p.falsenode_ids.getD right_id 0) &&
        checkIfSubtreesAreEqual p fuel (p.truenode_ids.getD left_id 0)
          (p.truenode_ids.getD right_id 0)

/-- The mutable state threaded through `AddNodes`: the `nodes_` array, the
`updated_mapping` vector and `max_feature_id_`.  `false_edges` is a ghost
field recording, for every branch, the pair (its position, the position
returned by the recursive `AddNodes` call for its false subtree); the C++
code checks the second component equals the first plus one and throws
otherwise, and stores nothing. -/
structure BuildState where
  nodes : Array TreeNodeElement := #[]
  updated_mapping : Array Nat := #[]
  max_feature_id : Int := 0
  false_edges : List (Nat × Nat) := []
deriving Repr

/-- The condition of the categorical-folding `while` loop inside `AddNodes`
(lines 473-476), for current false node `fnid` of original node `i`. -/
def chainFoldCond (p : PreIn) (subFuel : Nat) (i node_pos fnid : Nat) (st : BuildState) : Bool :=
  p.cmodes.getD fnid .LEAF = .BRANCH_EQ
    && (st.nodes.getD node_pos default).feature_id = p.nodes_featureids.getD fnid 0
    && canMask (f32AsFV (p.node_values.getD fnid 0))
    && checkIfSubtreesAreEqual p subFuel (p.truenode_ids.getD i 0) (p.truenode_ids.getD fnid 0)

/-- The categorical-folding `while` loop of `AddNodes` (lines 470-481):
while the false node continues an equality chain on the same feature with
an in-range integer threshold and an identical true subtree, OR its
category bit into the mask at `node_pos` and advance along the false
links.  Returns the final false node id and the updated state. -/
def foldChain (p : PreIn) (subFuel : Nat) (i node_pos : Nat) :
    Nat → Nat → BuildState → Nat × BuildState
  | 0, fnid, st => (fnid, st)
  | fuel + 1, fnid, st =>
    if chainFoldCond p subFuel i node_pos fnid st then
      let z := fvNum (f32AsFV (p.node_values.getD fnid 0))
      let st := { st with
        nodes := st.nodes.modify node_pos (fun n =>
          { n with value_or_unique_weight := updateThreshold z n.value_or_unique_weight }) }
      foldChain p subFuel i node_pos fuel (p.falsenode_ids.getD fnid 0) st
    else (fnid, st)

/-- The `max_feature_id_` update of `AddNodes` (lines 444-446). -/
def bumpMaxFeature (fid : Int) (st : BuildState) : BuildState :=
  if fid > st.max_feature_id then { st with max_feature_id := fid } else st

/-- The node record built by `AddNodes` before the children are wired up
(lines 441-459): mode and feature id from the inputs; a `BRANCH_EQ` whose
threshold passes `CANMASK` becomes a `BRANCH_MEMBER` with a one-bit mask
(`UpdateThreshold` applied to the zero-initialized value); the
missing-track bit is set when `nodes_missing_value_tracks_true[i] == 1`. -/
def mkCompiledNode (p : PreIn) (i : Nat) : TreeNodeElement :=
  let mode0 := p.cmodes.getD i .LEAF
  let tv := f32AsFV (p.node_values.getD i 0)
  let modeVal : NodeMode × Nat :=
    if mode0 = .BRANCH_EQ ∧ canMask tv then
      (.BRANCH_MEMBER, updateThreshold (fvNum tv) 0)
    else (mode0, p.node_values.getD i 0)
  { mode := modeVal.1,
    missingTrue := decide (i < p.nodes_missing_value_tracks_true.size)
      && p.nodes_missing_value_tracks_true.getD i 0 = 1,
    feature_id := p.nodes_featureids.getD i 0,
    value_or_unique_weight := modeVal.2 }

/-- Lines 438-460 of `AddNodes`: record the node's future position in
`updated_mapping`, update `max_feature_id_` and push the freshly built
node. -/
def pushNodeState (p : PreIn) (i : Nat) (st : BuildState) : BuildState :=
  let st1 := bumpMaxFeature (p.nodes_featureids.getD i 0)
    { st with updated_mapping := st.updated_mapping.setD i st.nodes.size }
  { st1 with nodes := st1.nodes.push (mkCompiledNode p i) }

/-- `TreeEnsembleCommon::AddNodes` (lines 419-503), fuel-driven (the C++
recursion can only diverge on inputs with a cycle through flat index 0,
where `updated_mapping`'s 0-initialization is ambiguous; fuel exhaustion is
an error the way any `ORT_THROW` is). -/
def addNodes (p : PreIn) : Nat → Nat → Int → BuildState → Except String (Nat × BuildState)
  | 0, _, _, _ => .error "out of fuel"
  | fuel + 1, i, tree_id, st =>
    if (p.node_tree_ids.getD i (0, 0)).1 ≠ tree_id then
      .error "Tree id mismatch."
    else if st.updated_mapping.getD i 0 ≠ 0 then
      .ok (st.updated_mapping.getD i 0, st)
    else
      let node_pos := st.nodes.size
      let node := mkCompiledNode p i
      let st2 := pushNodeState p i st
      if node.mode ≠ .LEAF then
        -- `nodes_[node_pos].flags == NODE_MODE::BRANCH_MEMBER` compares the
        -- whole flags byte, so a set missing-track bit suppresses folding.
        let fcr := if node.mode = .BRANCH_MEMBER ∧ node.missingTrue = false then
            foldChain p fuel i node_pos fuel (p.falsenode_ids.getD i 0) st2
          else (p.falsenode_ids.getD i 0, st2)
        Except.bind (addNodes p fuel fcr.1 tree_id fcr.2) (fun fres =>
          if fres.1 ≠ node_pos + 1 then
            .error "False node must always be the next node."
          else
            Except.bind (addNodes p fuel (p.truenode_ids.getD i 0) tree_id
                { fres.2 with false_edges := (node_pos, fres.1) :: fres.2.false_edges })
              (fun tres =>
                .ok (node_pos, { tres.2 with
                  nodes := tres.2.nodes.modify node_pos
                    (fun n => { n with truenode := tres.1 }) })))
      else
        .ok (node_pos, { st2 with
          nodes := st2.nodes.modify node_pos (fun n => { n with weight := 0, n_weights := 0 }) })

/-! ### Init (lines 171-374) -/

/-- The attribute vectors consumed by `Init` (the `*_as_tensor` double
variants are empty in this instantiation, so the `float` vectors are the
ones in effect; `nodes_modes` arrives already decoded to `NODE_MODE`, the
string decoding `MakeTreeNodeMode` living in a header outside the
sources). -/
structure EnsembleAttrs where
  n_targets_or_classes : Int := 1
  nodes_falsenodeids : List Int := []
  nodes_featureids : List Int := []
  nodes_missing_value_tracks_true : List Int := []
  nodes_modes : List NodeMode := []
  nodes_nodeids : List Int := []
  nodes_treeids : List Int := []
  nodes_truenodeids : List Int := []
  nodes_values : List Nat := []            -- binary32 patterns
  target_class_ids : List Int := []
  target_class_nodeids : List Int := []
  target_class_treeids : List Int := []
  target_class_weights : List Nat := []    -- binary32 patterns
deriving Repr

/-- The `same_mode_` loop of `Init` (lines 236-246): `fpos` holds the mode
of the first non-leaf node once seen; any later non-leaf mode differing
from it clears the flag. -/
def sameModeLoop : List NodeMode → Option NodeMode → Bool → Bool
  | [], _, sm => sm
  | m :: rest, fpos, sm =>
    if m = .LEAF then sameModeLoop rest fpos sm
    else
      match fpos with
      | none => sameModeLoop rest (some m) sm
      | some f => sameModeLoop rest (some f) (if m ≠ f then false else sm)

/-- `same_mode_` as computed by `Init` from the INPUT modes (before the
`BRANCH_EQ → BRANCH_MEMBER` rewriting done in `AddNodes`). -/
def sameModeCalc (modes : List NodeMode) : Bool := sameModeLoop modes none true

/-- Whether the `(tree_id, node_id)` key list contains a duplicate (the
`node_tree_ids_map.insert` failure of lines 266-269). -/
def dupCheck : List (Int × Int) → Bool
  | [] => false
  | x :: rest => rest.contains x || dupCheck rest

/-- First flat index carrying the given `(tree_id, node_id)` key (the
`node_tree_ids_map` lookup; insertion kept only the first occurrence and
duplicates were rejected). -/
def lookupNodeId (ids : List (Int × Int)) (key : Int × Int) : Option Nat :=
  ids.findIdx? (· = key)

/-- The child-resolution loop of `Init` (lines 274-306), producing
`truenode_ids` and `falsenode_ids` as flat indices; `rem` counts the
remaining iterations, `i` is the loop variable (which also equals the
current length of the accumulated lists, as used by the self-loop check). -/
def resolveLoop (cmodes : List NodeMode) (ids : List (Int × Int))
    (trueids falseids : List Int) (n : Int) :
    Nat → Nat → List Nat → List Nat → Except String (List Nat × List Nat)
  | 0, _, tacc, facc => .ok (tacc.reverse, facc.reverse)
  | rem + 1, i, tacc, facc =>
    if cmodes.getD i .LEAF = .LEAF then
      resolveLoop cmodes ids trueids falseids n rem (i + 1) (0 :: tacc) (0 :: facc)
    else
      let tid := (ids.getD i (0, 0)).1
      let tn := trueids.getD i 0
      if ¬(0 ≤ tn ∧ tn < n) then .error "ORT_ENFORCE node_id in range (truenode)"
      else
        match lookupNodeId ids (tid, tn) with
        | none => .error "Unable to find node (truenode)."
        | some ft =>
          if ft = i then .error "A node cannot point to itself (truenode)."
          else
            let fn := falseids.getD i 0
            if ¬(0 ≤ fn ∧ fn < n) then .error "ORT_ENFORCE node_id in range (falsenode)"
            else
              match lookupNodeId ids (tid, fn) with
              | none => .error "Unable to find node (falsenode)."
              | some ff =>
                if ff = i then .error "A node cannot point to itself (falsenode)."
                else resolveLoop cmodes ids trueids falseids n rem (i + 1)
                    (ft :: tacc) (ff :: facc)

/-- Insert into a list sorted by `idxLt` (model of `std::sort` on the
target index pairs; keys are distinct because the second component is the
distinct flat index). -/
def insertSorted (x : (Int × Int) × Nat) : List ((Int × Int) × Nat) → List ((Int × Int) × Nat)
  | [] => [x]
  | y :: rest => if idxLt x y then x :: y :: rest else y :: insertSorted x rest

/-- `std::sort(indices.begin(), indices.end())` (line 316). -/
def sortIndices (l : List ((Int × Int) × Nat)) : List ((Int × Int) × Nat) :=
  l.foldl (fun acc x => insertSorted x acc) []

/-- The tree-roots loop of `Init` (lines 320-333): call `AddNodes` at the
first flat index of every tree (`prev = none` models
`previous_tree_id = -1`). -/
def rootsLoop (p : PreIn) (fuel : Nat) :
    Nat → Nat → Option Int → BuildState → List Nat → Except String (BuildState × List Nat)
  | 0, _, _, st, roots => .ok (st, roots)
  | rem + 1, i, prev, st, roots =>
    let tid := (p.node_tree_ids.getD i (0, 0)).1
    if prev = some tid then rootsLoop p fuel rem (i + 1) prev st roots
    else
      match addNodes p fuel i tid st with
      | .error e => .error e
      | .ok (root_position, st) =>
        rootsLoop p fuel rem (i + 1) (some tid) st (roots ++ [root_position])

/-- The weight-attachment loop of `Init` (lines 339-363): weights are bound
to their leaf (first weight inlined into `value_or_unique_weight`); weights
whose target is not a leaf are silently ignored. -/
def attachWeights (a : EnsembleAttrs) (ids : List (Int × Int)) (um : Array Nat) :
    List ((Int × Int) × Nat) → Array TreeNodeElement → List (Int × Nat) →
    Except String (Array TreeNodeElement × List (Int × Nat))
  | [], nodes, ws => .ok (nodes, ws)
  | (ind, i) :: rest, nodes, ws =>
    match lookupNodeId ids ind with
    | none => .error "Unable to find node (weights)."
    | some found =>
      let li := um.getD found 0
      let node := nodes.getD li default
      if node.mode ≠ .LEAF then attachWeights a ids um rest nodes ws
      else
        let wv := a.target_class_weights.getD i 0
        let node := if node.n_weights = 0 then
            { node with weight := ws.length, value_or_unique_weight := wv }
          else node
        let node := { node with n_weights := node.n_weights + 1 }
        attachWeights a ids um rest (nodes.setD li node)
          (ws ++ [(a.target_class_ids.getD i 0, wv)])

/-- The compiled forest (the state of `TreeEnsembleCommon` after `Init`).
`false_edges` is the ghost record described at `BuildState`. -/
structure Forest where
  nodes : Array TreeNodeElement := #[]
  roots : List Nat := []
  weights : List (Int × Nat) := []
  n_trees : Nat := 0
  same_mode : Bool := false
  has_missing_tracks : Bool := false
  max_feature_id : Int := 0
  n_targets_or_classes : Int := 1
  false_edges : List (Nat × Nat) := []
deriving Repr

instance : Inhabited Forest := ⟨{}⟩

/-- `TreeEnsembleCommon::Init` (lines 171-374): validation, `same_mode_`
computation, child resolution, target sorting, tree compilation via
`AddNodes`, weight attachment and `has_missing_tracks_`. -/
def initModel (a : EnsembleAttrs) : Except String Forest :=
  if ¬(a.n_targets_or_classes > 0) then .error "ORT_ENFORCE n_targets_or_classes > 0"
  else if ¬(a.nodes_falsenodeids.length = a.nodes_featureids.length ∧
      a.nodes_falsenodeids.length = a.nodes_modes.length ∧
      a.nodes_falsenodeids.length = a.nodes_nodeids.length ∧
      a.nodes_falsenodeids.length = a.nodes_treeids.length ∧
      a.nodes_falsenodeids.length = a.nodes_truenodeids.length ∧
      a.nodes_falsenodeids.length = a.nodes_values.length ∧
      a.target_class_ids.length = a.target_class_nodeids.length ∧
      a.target_class_ids.length = a.target_class_treeids.length ∧
      (a.target_class_weights = [] ∨
        a.target_class_ids.length = a.target_class_weights.length)) then
    .error "ORT_ENFORCE attribute lengths"
  else
    let cmodes := a.nodes_modes
    let same_mode := sameModeCalc cmodes
    let n := a.nodes_treeids.length
    let ids := List.zip a.nodes_treeids a.nodes_nodeids
    if dupCheck ids then .error "Node is already there."
    else
      match resolveLoop cmodes ids a.nodes_truenodeids a.nodes_falsenodeids (n : Int) n 0 [] [] with
      | .error e => .error e
      | .ok (trueids, falseids) =>
        let tkeys := List.zip a.target_class_treeids a.target_class_nodeids
        let indices := sortIndices (List.zip tkeys (List.range tkeys.length))
        let p : PreIn :=
          { cmodes := cmodes.toArray, truenode_ids := trueids.toArray,
            falsenode_ids := falseids.toArray,
            nodes_featureids := a.nodes_featureids.toArray,
            node_values := a.nodes_values.toArray,
            nodes_missing_value_tracks_true := a.nodes_missing_value_tracks_true.toArray,
            node_tree_ids := ids.toArray,
            target_class_weights := a.target_class_weights.toArray,
            indices := indices.toArray }
        let st0 : BuildState := { updated_mapping := Array.mkArray n 0 }
        match rootsLoop p (n + 2) n 0 none st0 [] with
        | .error e => .error e
        | .ok (st, roots) =>
          match attachWeights a ids st.updated_mapping indices st.nodes [] with
          | .error e => .error e
          | .ok (nodes, weights) =>
            .ok { nodes := nodes, roots := roots, weights := weights,
                  n_trees := roots.length, same_mode := same_mode,
                  has_missing_tracks := a.nodes_missing_value_tracks_true.any (· ≠ 0),
                  max_feature_id := st.max_feature_id,
                  n_targets_or_classes := a.n_targets_or_classes,
                  false_edges := st.false_edges }

/-! ### ProcessTreeNodeLeave (lines 778-900) -/

/-- Branch decision of the specialized (`same_mode_`) hot loops: the
comparator is fixed by the ROOT node's mode; the NaN redirect only exists
in the `has_missing_tracks_` variant of each loop (here folded into one
formula via the `hasMissing` flag). -/
def hotTakeBranch (rootMode : NodeMode) (hasMissing : Bool)
    (node : TreeNodeElement) (val : FV) : Bool :=
  let thr := f32AsFV node.value_or_unique_weight
  let cmp :=
    match rootMode with
    | .BRANCH_LEQ => FV.leb val thr
    | .BRANCH_LT => FV.ltb val thr
    | .BRANCH_GTE => FV.geb val thr
    | .BRANCH_GT => FV.gtb val thr
    | .BRANCH_EQ => FV.eqb val thr
    | .BRANCH_NEQ => FV.neb val thr
    | .BRANCH_MEMBER => setMembershipCheck val node.value_or_unique_weight
    | .LEAF => false
  cmp || (hasMissing && node.missingTrue && val.isNaN)

/-- Branch decision of the per-node (`!same_mode_`) loop (lines 859-898):
the comparator follows each node's own mode and the NaN redirect is always
present. -/
def mixedTakeBranch (node : TreeNodeElement) (val : FV) : Bool :=
  let thr := f32AsFV node.value_or_unique_weight
  let cmp :=
    match node.mode with
    | .BRANCH_LEQ => FV.leb val thr
    | .BRANCH_LT => FV.ltb val thr
    | .BRANCH_GTE => FV.geb val thr
    | .BRANCH_GT => FV.gtb val thr
    | .BRANCH_EQ => FV.eqb val thr
    | .BRANCH_NEQ => FV.neb val thr
    | .BRANCH_MEMBER => setMembershipCheck val node.value_or_unique_weight
    | .LEAF => false
  cmp || (node.missingTrue && val.isNaN)

/-- The `same_mode_` walk (one of the `TREE_FIND_VALUE`-style loops),
fuel-driven; a compiled tree's true links always point forward so the walk
terminates within `nodes.size` steps. -/
def walkSame (nodes : Array TreeNodeElement) (x : List FV)
    (rootMode : NodeMode) (hasMissing : Bool) : Nat → Nat → Nat
  | 0, pos => pos
  | fuel + 1, pos =>
    let node := nodes.getD pos default
    if node.mode = .LEAF then pos
    else
      let val := x.getD node.feature_id.toNat .nan
      walkSame nodes x rootMode hasMissing fuel
        (if hotTakeBranch rootMode hasMissing node val then node.truenode else pos + 1)

/-- The `!same_mode_` walk (the `while (1)` loop with a per-node switch). -/
def walkMixed (nodes : Array TreeNodeElement) (x : List FV) : Nat → Nat → Nat
  | 0, pos => pos
  | fuel + 1, pos =>
    let node := nodes.getD pos default
    if node.mode = .LEAF then pos
    else
      let val := x.getD node.feature_id.toNat .nan
      walkMixed nodes x fuel
        (if mixedTakeBranch node val then node.truenode else pos + 1)

/-- `TreeEnsembleCommon::ProcessTreeNodeLeave` (lines 805-900): walk from a
root to a leaf, returning the leaf's index. -/
def processTreeNodeLeave (f : Forest) (x : List FV) (rootPos : Nat) : Nat :=
  if f.same_mode then
    walkSame f.nodes x (f.nodes.getD rootPos default).mode f.has_missing_tracks
      (f.nodes.size + 1) rootPos
  else
    walkMixed f.nodes x (f.nodes.size + 1) rootPos

/-- Exact addition on `FV` values. -/
def fvAdd : FV → FV → FV
  | .nan, _ => .nan
  | _, .nan => .nan
  | .inf a, .inf b => if a = b then .inf a else .nan
  | .inf a, .num _ => .inf a
  | .num _, .inf b => .inf b
  | .num a, .num b => .num (a + b)

/-- Modelled from the spec: the SUM aggregation of a single-target
regression over one row (`ProcessTreeNodePrediction1` accumulating each
leaf's `value_or_unique_weight` and `FinalizeScores1` with no base values
and post-transform NONE; `TreeAggregatorSum` lives in
`tree_ensemble_aggregator.h`, which is not among the sources).  The
accumulation here is exact; the concrete cases proved below involve sums
that are exact in float as well. -/
def evalSumSingleTarget (f : Forest) (x : List FV) : FV :=
  f.roots.foldl
    (fun acc r =>
      fvAdd acc (f32AsFV
        ((f.nodes.getD (processTreeNodeLeave f x r) default).value_or_unique_weight)))
    (.num 0)

/-! ## The Cast kernel constructor (cast_op.cc lines 341-358) -/

/-- `ONNX_NAMESPACE::TensorProto::FLOAT8E4M3FN` (data-type code from the
ONNX schema; the protobuf header is an external collaborator). -/
def FLOAT8E4M3FN : Int := 17

/-- `TensorProto::FLOAT8E4M3FNUZ`. -/
def FLOAT8E4M3FNUZ : Int := 18

/-- `TensorProto::FLOAT8E5M2`. -/
def FLOAT8E5M2 : Int := 19

/-- `TensorProto::FLOAT8E5M2FNUZ`. -/
def FLOAT8E5M2FNUZ : Int := 20

/-- The state of a constructed `Cast` kernel. -/
structure CastKernel where
  to_ : Int
  saturate_ : Bool
deriving DecidableEq, Repr

/-- `Cast::Cast(const OpKernelInfo&)` (cast_op.cc lines 341-358): an absent
attribute makes `info.GetAttr` return a failing status.  If `saturate` is
absent it defaults to 1; if present and the destination is not one of the
four 8-bit float types, construction throws. -/
def castCtor (toAttr : Option Int) (saturateAttr : Option Int) : Except String CastKernel :=
  match toAttr with
  | none => .error "Attribute to is not set."
  | some dst =>
    match saturateAttr with
    | none => .ok { to_ := dst, saturate_ := true }
    | some saturate =>
      if dst ≠ FLOAT8E4M3FN ∧ dst ≠ FLOAT8E4M3FNUZ ∧ dst ≠ FLOAT8E5M2 ∧ dst ≠ FLOAT8E5M2FNUZ then
        .error "Parameter saturate is only used for cast to float 8 types."
      else
        .ok { to_ := dst, saturate_ := saturate = 1 }

/-! ## Concrete scenarios (from the spec's end-to-end tests) -/

/-- The mask accumulated by a sequence of `UpdateThreshold` calls over the
integer categories `ts` (starting from the float 0.0f pattern, whose bits
are 0). -/
def chainMask (ts : List Nat) : Nat :=
  ts.foldl (fun (m : Nat) (t : Nat) => updateThreshold ((t : Int) * fvScaleZ) m) 0

/-- Scenario "categorical fold": a three-node chain
`BRANCH_EQ f=0 t=1 → L+`, `BRANCH_EQ f=0 t=3 → L+`, `BRANCH_EQ f=0 t=5 → L+`
all sharing the true leaf (+1.0, node 3), false chain ending at the leaf
-1.0 (node 4).  Patterns: 1.0f = 0x3F800000, 3.0f = 0x40400000,
5.0f = 0x40A00000, -1.0f = 0xBF800000. -/
def chainAttrs : EnsembleAttrs :=
  { n_targets_or_classes := 1,
    nodes_falsenodeids := [1, 2, 4, 0, 0],
    nodes_featureids := [0, 0, 0, 0, 0],
    nodes_missing_value_tracks_true := [0, 0, 0, 0, 0],
    nodes_modes := [.BRANCH_EQ, .BRANCH_EQ, .BRANCH_EQ, .LEAF, .LEAF],
    nodes_nodeids := [0, 1, 2, 3, 4],
    nodes_treeids := [0, 0, 0, 0, 0],
    nodes_truenodeids := [3, 3, 3, 0, 0],
    nodes_values := [0x3F800000, 0x40400000, 0x40A00000, 0, 0],
    target_class_ids := [0, 0],
    target_class_nodeids := [3, 4],
    target_class_treeids := [0, 0],
    target_class_weights := [0x3F800000, 0xBF800000] }

/-- The compiled forest of `chainAttrs`. -/
def chainForest : Forest := ((initModel chainAttrs).toOption).getD default

/-- An all-`BRANCH_EQ` tree whose root threshold 2.5 cannot be masked while
the second branch (threshold 1.0) can: node 0 = EQ(f0, 2.5) → true node 2,
false node 1; node 1 = EQ(f0, 1.0) → true node 3, false node 4;
nodes 2-4 leaves.  2.5f = 0x40200000. -/
def mixedAttrs : EnsembleAttrs :=
  { n_targets_or_classes := 1,
    nodes_falsenodeids := [1, 4, 0, 0, 0],
    nodes_featureids := [0, 0, 0, 0, 0],
    nodes_missing_value_tracks_true := [0, 0, 0, 0, 0],
    nodes_modes := [.BRANCH_EQ, .BRANCH_EQ, .LEAF, .LEAF, .LEAF],
    nodes_nodeids := [0, 1, 2, 3, 4],
    nodes_treeids := [0, 0, 0, 0, 0],
    nodes_truenodeids := [2, 3, 0, 0, 0],
    nodes_values := [0x40200000, 0x3F800000, 0, 0, 0],
    target_class_ids := [0, 0, 0],
    target_class_nodeids := [2, 3, 4],
    target_class_treeids := [0, 0, 0],
    target_class_weights := [0x40000000, 0x3F800000, 0xBF800000] }

/-- The compiled forest of `mixedAttrs`. -/
def mixedForest : Forest := ((initModel mixedAttrs).toOption).getD default

/-- Scenario "missing-track": a single `BRANCH_LEQ` stump with threshold
0.5 (0x3F000000), `missing_goes_true = 1` on the root, true leaf +1.0,
false leaf -1.0. -/
def missingStumpAttrs : EnsembleAttrs :=
  { n_targets_or_classes := 1,
    nodes_falsenodeids := [2, 0, 0],
    nodes_featureids := [0, 0, 0],
    nodes_missing_value_tracks_true := [1, 0, 0],
    nodes_modes := [.BRANCH_LEQ, .LEAF, .LEAF],
    nodes_nodeids := [0, 1, 2],
    nodes_treeids := [0, 0, 0],
    nodes_truenodeids := [1, 0, 0],
    nodes_values := [0x3F000000, 0, 0],
    target_class_ids := [0, 0],
    target_class_nodeids := [1, 2],
    target_class_treeids := [0, 0],
    target_class_weights := [0x3F800000, 0xBF800000] }

/-- The compiled forest of `missingStumpAttrs`. -/
def missingStumpForest : Forest := ((initModel missingStumpAttrs).toOption).getD default

/-- A single `BRANCH_EQ` stump with integer threshold 2.0 (0x40000000) that
is NOT part of an equality chain (its false child is a leaf), in `AddNodes`
input form (the `PreIn` a corresponding `Init` would produce). -/
def singleEqPre : PreIn :=
  { cmodes := #[.BRANCH_EQ, .LEAF, .LEAF],
    truenode_ids := #[2, 0, 0],
    falsenode_ids := #[1, 0, 0],
    nodes_featureids := #[0, 0, 0],
    node_values := #[0x40000000, 0, 0],
    nodes_missing_value_tracks_true := #[0, 0, 0],
    node_tree_ids := #[(0, 0), (0, 1), (0, 2)],
    target_class_weights := #[],
    indices := #[] }

/-- Initial build state for `singleEqPre`. -/
def singleEqSt0 : BuildState := { updated_mapping := Array.mkArray 3 0 }

instance : Inhabited BuildState := ⟨{}⟩

/-- Result state of compiling `singleEqPre` (position component and state
component). -/
def singleEqRes : Nat × BuildState :=
  ((addNodes singleEqPre 5 0 0 singleEqSt0).toOption).getD (0, default)

set_option maxRecDepth 1000000
set_option maxHeartbeats 4000000

/-! ## Codec lemmas -/

/-- Every E4M3 byte other than the two NaN slots (0x7F, 0xFF) round-trips
through binary32 to itself. -/
theorem e4m3_finite_roundtrip : ∀ b < 256, b ≠ 127 → b ≠ 255 →
    e4m3FromBits (e4m3ToBits b) = b := by decide

/-- Every E5M2 byte other than the six NaN slots (0x7D-0x7F, 0xFD-0xFF)
round-trips through binary32 to itself. -/
theorem e5m2_finite_roundtrip : ∀ b < 256, b % 128 < 125 →
    e5m2FromBits (e5m2ToBits b) = b := by decide

/-- All NaN slots of both formats round-trip to byte 0xFF, whatever their
sign (the narrowing conversions write `val |= 0xff` on a NaN input, which
overwrites the sign bit). -/
theorem f8_nan_roundtrip :
    (∀ b < 256, b = 127 ∨ b = 255 → e4m3FromBits (e4m3ToBits b) = 0xFF) ∧
    (∀ b < 256, 125 ≤ b % 128 → e5m2FromBits (e5m2ToBits b) = 0xFF) := by decide

/-- Finite binary32 inputs with biased exponent in [144, 254] (magnitude at
least 2^17) are mapped by the E5M2 narrowing to the reserved slot
0x7B / 0xFB. -/
theorem e5m2_overflow_reserved (b : Nat)
    (h1 : 144 ≤ (b &&& 0x7F800000) >>> 23) (h2 : (b &&& 0x7F800000) >>> 23 ≤ 254) :
    e5m2FromBits b = ((b &&& 0x80000000) >>> 24) ||| 123 := by
  have hnan : ¬(b &&& 0x7fc00000 = 0x7fc00000) := by
    intro h
    have h3 : b &&& 0x7F800000 = 0x7F800000 := by
      have h4 := congrArg (· &&& 0x7F800000) h
      simp only at h4
      rw [Nat.and_assoc] at h4
      exact h4
    rw [h3] at h2
    exact absurd h2 (by decide)
  have he : ¬((b &&& 0x7F800000) >>> 23 = 255) := by omega
  unfold e5m2FromBits
  simp only [if_neg hnan]
  have h0 : ¬((b &&& 0x7F800000) >>> 23 = 0) := by omega
  have ha : ¬((b &&& 0x7F800000) >>> 23 < 110) := by omega
  have hb : ¬((b &&& 0x7F800000) >>> 23 < 111) := by omega
  have hc : ¬((b &&& 0x7F800000) >>> 23 < 113) := by omega
  have hd : ¬((b &&& 0x7F800000) >>> 23 < 144) := by omega
  have hinf : ¬((b &&& 0x7F800000) >>> 23 = 255 ∧ b &&& 0x007FFFFF = 0) := by
    intro hx; exact he hx.1

  simp only [if_neg h0, if_neg ha, if_neg hb, if_neg hc, if_neg hd, if_neg hinf]

/-! ## Codec claim theorems (C3-C6) -/

/-- C3, counterexample: the positive E4M3 NaN slot 0x7F does not round-trip
to the canonical NaN slot of its sign; it comes back as the negative slot
0xFF. -/
theorem c3_nan_slot_sign_lost :
    e4m3FromBits (e4m3ToBits 0x7F) = 0xFF ∧ (0xFF : Nat) ≠ 0x7F := by decide

/-- C3 (amended): for every 8-bit value that is not a NaN encoding,
converting to binary32 and back is the identity on the byte, for both E4M3
(NaN slots 0x7F/0xFF) and E5M2 (NaN slots 0x7D-0x7F/0xFD-0xFF); every NaN
slot of either sign round-trips to the byte 0xFF (not to the canonical NaN
slot of its own sign). -/
theorem c3_f8_roundtrip :
    (∀ b < 256, b ≠ 127 → b ≠ 255 → e4m3FromBits (e4m3ToBits b) = b) ∧
    (∀ b < 256, b % 128 < 125 → e5m2FromBits (e5m2ToBits b) = b) ∧
    (∀ b < 256, b = 127 ∨ b = 255 → e4m3FromBits (e4m3ToBits b) = 0xFF) ∧
    (∀ b < 256, 125 ≤ b % 128 → e5m2FromBits (e5m2ToBits b) = 0xFF) :=
  ⟨e4m3_finite_roundtrip, e5m2_finite_roundtrip, f8_nan_roundtrip.1, f8_nan_roundtrip.2⟩

/-- Witness for `c3_f8_roundtrip` at bytes 0x3C, 0xFF and 0x7D. -/
theorem c3_f8_roundtrip_witness :
    e4m3FromBits (e4m3ToBits 0x3C) = 0x3C ∧ e5m2FromBits (e5m2ToBits 0x3C) = 0x3C ∧
    e4m3FromBits (e4m3ToBits 0xFF) = 0xFF ∧ e5m2FromBits (e5m2ToBits 0x7D) = 0xFF :=
  ⟨c3_f8_roundtrip.1 0x3C (by decide) (by decide) (by decide),
   c3_f8_roundtrip.2.1 0x3C (by decide) (by decide),
   c3_f8_roundtrip.2.2.1 0xFF (by decide) (by decide),
   c3_f8_roundtrip.2.2.2 0x7D (by decide) (by decide)⟩

/-- C4, counterexample: the input 1.0625 (bit pattern 0x3F880000) lies
exactly halfway between the E4M3 values 1.0 (byte 0x38, even mantissa) and
1.125 (byte 0x39, odd mantissa); round-to-nearest-even would pick 0x38, but
the conversion returns 0x39. -/
theorem c4_tie_not_to_even :
    e4m3FromBits 0x3F880000 = 0x39 ∧
    f32AsFV 0x3F880000 = FV.num ((e4m3Mag 0x38 + e4m3Mag 0x39) / 2) ∧
    e4m3Mag 0x39 - (e4m3Mag 0x38 + e4m3Mag 0x39) / 2
      = (e4m3Mag 0x38 + e4m3Mag 0x39) / 2 - e4m3Mag 0x38 ∧
    (0x38 : Nat) % 2 = 0 ∧ (0x39 : Nat) % 2 = 1 := by decide

/-- C4 (amended): narrowing rounds to nearest with ties broken AWAY FROM
ZERO, not to even.  Verified on the full grid of both formats: every
representable byte encodes back to itself; the exact midpoint of every pair
of adjacent finite values (either sign) encodes to the neighbour of larger
magnitude; the quarter- and three-quarter-points of every gap encode to the
nearer endpoint.  (Each constructed input is validated by a `f32AsFV`
conjunct stating its exact value.) -/
theorem c4_round_nearest_ties_away :
    (∀ b < 256, b ≠ 127 → b ≠ 255 → e4m3FromBits (e4m3ToBits b) = b) ∧
    (∀ b < 256, b % 128 < 125 → e5m2FromBits (e5m2ToBits b) = b) ∧
    (∀ c < 126,
      (f32AsFV (midBits (e4m3Mag c) (e4m3Mag (c + 1)))
          = FV.num ((e4m3Mag c + e4m3Mag (c + 1)) / 2) ∧
        e4m3FromBits (midBits (e4m3Mag c) (e4m3Mag (c + 1))) = c + 1) ∧
      e4m3FromBits (0x80000000 ||| midBits (e4m3Mag c) (e4m3Mag (c + 1))) = 128 + c + 1) ∧
    (∀ c < 126,
      (f32AsFV (quarterBits (e4m3Mag c) (e4m3Mag (c + 1)))
          = FV.num (e4m3Mag c + (e4m3Mag (c + 1) - e4m3Mag c) / 4) ∧
        e4m3FromBits (quarterBits (e4m3Mag c) (e4m3Mag (c + 1))) = c) ∧
      e4m3FromBits (quarterBits (e4m3Mag (c + 1)) (e4m3Mag c)) = c + 1) ∧
    (∀ c < 123,
      (f32AsFV (midBits (e5m2Mag c) (e5m2Mag (c + 1)))
          = FV.num ((e5m2Mag c + e5m2Mag (c + 1)) / 2) ∧
        e5m2FromBits (midBits (e5m2Mag c) (e5m2Mag (c + 1))) = c + 1) ∧
      e5m2FromBits (0x80000000 ||| midBits (e5m2Mag c) (e5m2Mag (c + 1))) = 128 + c + 1) ∧
    (∀ c < 123,
      e5m2FromBits (quarterBits (e5m2Mag c) (e5m2Mag (c + 1))) = c ∧
      e5m2FromBits (quarterBits (e5m2Mag (c + 1)) (e5m2Mag c)) = c + 1) := by
  refine ⟨e4m3_finite_roundtrip, e5m2_finite_roundtrip, ?_, ?_, ?_, ?_⟩ <;> decide

/-- Witness for `c4_round_nearest_ties_away` at byte 0 of each format
(midpoint between 0 and the smallest subnormal rounds away from zero). -/
theorem c4_round_nearest_ties_away_witness :
    e4m3FromBits (e4m3ToBits 0) = 0 ∧
    e4m3FromBits (midBits (e4m3Mag 0) (e4m3Mag 1)) = 1 ∧
    e5m2FromBits (midBits (e5m2Mag 0) (e5m2Mag 1)) = 1 :=
  ⟨c4_round_nearest_ties_away.1 0 (by decide) (by decide) (by decide),
   ((c4_round_nearest_ties_away.2.2.1 0 (by decide)).1).2,
   ((c4_round_nearest_ties_away.2.2.2.2.1 0 (by decide)).1).2⟩

/-- C5 (code bug): 448.0 (pattern 0x43E00000) does convert to the maximum
finite byte 0x7E, but finite magnitudes in (448, 512) are not clamped:
464.0 converts to the NaN slot 0x7F, 496.0 overflows the byte into 0x80
(negative zero), and -496.0 wraps the `uint8_t` to 0x00 (positive zero).
Only magnitudes ≥ 512 (biased exponent ≥ 136) reach the clamp `val |= 126`. -/
theorem c5_e4m3_no_clamp_above_448 :
    (f32AsFV 0x43E00000 = FV.num (448 * fvScale) ∧ e4m3FromBits 0x43E00000 = 0x7E) ∧
    (f32AsFV 0x43E80000 = FV.num (464 * fvScale) ∧ e4m3FromBits 0x43E80000 = 0x7F) ∧
    (f32AsFV 0x43F80000 = FV.num (496 * fvScale) ∧ e4m3FromBits 0x43F80000 = 0x80) ∧
    (f32AsFV 0xC3F80000 = FV.num (-(496 * fvScale)) ∧ e4m3FromBits 0xC3F80000 = 0x00) ∧
    e4m3ToBits 0x7F = 0x7fc00000 ∧ f32AsFV 0x7fc00000 = FV.nan := by decide

/-- C6, counterexample: the finite input 65504.0 (pattern 0x477FE000) is
converted by the E5M2 narrowing to 0x7C — the infinity encoding — and not
to the reserved slot 0x7B. -/
theorem c6_65504_rounds_to_inf :
    f32AsFV 0x477FE000 = FV.num (65504 * fvScale) ∧
    e5m2FromBits 0x477FE000 = 0x7C ∧ (0x7C : Nat) ≠ 0x7B := by decide

/-- C6 (amended): infinite inputs map to the infinity encoding (0x7C for
+inf, 0xFC for -inf); every FINITE input with biased exponent in [144, 254]
(magnitude ≥ 2^17) maps to the reserved slot 0x7B / 0xFB; but a finite
input that merely overflows the E5M2 range by rounding, such as 65504.0
(biased exponent 142), rounds up into the infinity encoding 0x7C. -/
theorem c6_e5m2_overflow :
    (f32AsFV 0x7F800000 = FV.inf false ∧ e5m2FromBits 0x7F800000 = 0x7C) ∧
    (f32AsFV 0xFF800000 = FV.inf true ∧ e5m2FromBits 0xFF800000 = 0xFC) ∧
    (f32AsFV 0x477FE000 = FV.num (65504 * fvScale) ∧ e5m2FromBits 0x477FE000 = 0x7C) ∧
    (∀ b : Nat, 144 ≤ (b &&& 0x7F800000) >>> 23 → (b &&& 0x7F800000) >>> 23 ≤ 254 →
      e5m2FromBits b = ((b &&& 0x80000000) >>> 24) ||| 123) := by
  refine ⟨by decide, by decide, by decide, fun b h1 h2 => e5m2_overflow_reserved b h1 h2⟩

/-- Witness for `c6_e5m2_overflow` at 131072.0 = 2^17 (pattern 0x48000000,
biased exponent 144) and its negation. -/
theorem c6_e5m2_overflow_witness :
    e5m2FromBits 0x48000000 = ((0x48000000 &&& 0x80000000) >>> 24) ||| 123 ∧
    e5m2FromBits 0xC8000000 = ((0xC8000000 &&& 0x80000000) >>> 24) ||| 123 :=
  ⟨c6_e5m2_overflow.2.2.2 0x48000000 (by decide) (by decide),
   c6_e5m2_overflow.2.2.2 0xC8000000 (by decide) (by decide)⟩


/-! ## Tree-compiler lemmas -/

theorem fvScaleZ_pos : (0 : Int) < fvScaleZ := by norm_num [fvScaleZ, fvScale]

theorem castU_scaled (t : Nat) : castU ((t : Int) * fvScaleZ) = t := by
  unfold castU
  rw [Int.mul_ediv_cancel _ (by have := fvScaleZ_pos; omega)]
  simp

theorem updateThreshold_scaled (t : Nat) (m : Nat) :
    updateThreshold ((t : Int) * fvScaleZ) m = m ||| 2 ^ (t - 1) := by
  unfold updateThreshold
  rw [castU_scaled, Nat.shiftLeft_eq, one_mul]

theorem chainMask_testBit (ts : List Nat) (k : Nat) :
    (chainMask ts).testBit k ↔ ∃ t ∈ ts, t - 1 = k := by
  suffices h : ∀ m, ((ts.foldl (fun (m : Nat) (t : Nat) =>
      updateThreshold ((t : Int) * fvScaleZ) m) m).testBit k
      ↔ m.testBit k ∨ ∃ t ∈ ts, t - 1 = k) by
    have := h 0
    simpa [chainMask] using this
  induction ts with
  | nil => simp
  | cons t rest ih =>
    intro m
    rw [List.foldl_cons, ih (updateThreshold ((t : Int) * fvScaleZ) m),
      updateThreshold_scaled, Nat.testBit_lor]
    constructor
    · rintro (h | ⟨u, hu, huk⟩)
      · rcases Bool.or_eq_true _ _ |>.mp h with h' | h'
        · exact Or.inl h'
        · by_cases hk : t - 1 = k
          · exact Or.inr ⟨t, List.mem_cons_self t rest, hk⟩
          · rw [Nat.testBit_two_pow_of_ne hk] at h'
            exact absurd h' (by simp)
      · exact Or.inr ⟨u, List.mem_cons_of_mem t hu, huk⟩
    · rintro (h | ⟨u, hu, huk⟩)
      · exact Or.inl (by simp [h])
      · rcases List.mem_cons.mp hu with rfl | hu'
        · refine Or.inl ?_
          have h2 : (2 ^ (u - 1)).testBit k = true := by
            rw [← huk]
            exact Nat.testBit_two_pow_self
          simp [h2]
        · exact Or.inr ⟨u, hu', huk⟩

theorem canMaskW_scaled (W t : Nat) :
    canMaskW W (.num ((t : Int) * fvScaleZ)) = (decide (1 ≤ t) && decide (t ≤ W)) := by
  have hs := fvScaleZ_pos
  simp only [canMaskW]
  have h1 : (fvScaleZ ≤ (t : Int) * fvScaleZ) ↔ (1 : Int) ≤ (t : Int) := by
    constructor
    · intro h; nlinarith
    · intro h; nlinarith
  have h2 : ((t : Int) * fvScaleZ ≤ (W : Int) * fvScaleZ) ↔ (t : Int) ≤ (W : Int) := by
    constructor
    · intro h; nlinarith
    · intro h; nlinarith
  have h3 : ((t : Int) * fvScaleZ) % fvScaleZ = 0 := Int.mul_emod_left _ _
  simp only [h3, decide_eq_true_eq]
  by_cases ha : (1 : Nat) ≤ t <;> by_cases hb : t ≤ W <;>
    simp [ha, hb, h1, h2] <;> omega

theorem canMaskW_elim (W : Nat) (z : Int) (h : canMaskW W (.num z) = true) :
    ∃ t : Nat, z = (t : Int) * fvScaleZ ∧ 1 ≤ t ∧ t ≤ W := by
  have hs := fvScaleZ_pos
  simp only [canMaskW, Bool.and_eq_true, decide_eq_true_eq] at h
  obtain ⟨⟨h1, h2⟩, h3⟩ := h
  have hdvd : fvScaleZ ∣ z := Int.dvd_of_emod_eq_zero h3
  obtain ⟨c, hc⟩ := hdvd
  have hc1 : (1 : Int) ≤ c := by nlinarith
  have hcW : c ≤ (W : Int) := by nlinarith
  refine ⟨c.toNat, ?_, by omega, by omega⟩
  rw [hc, Int.toNat_of_nonneg (by omega)]
  ring

/-- Core of C2/C10: the membership check over the accumulated mask decides
exactly "the input equals one of the folded categories". -/
theorem setMembership_chain (W : Nat) (ts : List Nat) (v : FV)
    (hts : ∀ t ∈ ts, 1 ≤ t ∧ t ≤ W) :
    setMembershipCheckW W v (chainMask ts)
      = ts.any (fun t => FV.eqb v (.num ((t : Int) * fvScaleZ))) := by
  have hs := fvScaleZ_pos
  cases v with
  | nan => simp [setMembershipCheckW, canMaskW, FV.eqb]
  | inf b => simp [setMembershipCheckW, canMaskW, FV.eqb]
  | num z =>
    by_cases hcm : canMaskW W (.num z) = true
    · obtain ⟨u, rfl, hu1, huW⟩ := canMaskW_elim W z hcm
      by_cases hmem : (chainMask ts).testBit (u - 1)
      · have hne : ¬(2 ^ (u - 1) &&& chainMask ts = 0) := by
          rw [Nat.two_pow_and, hmem]
          simp
        obtain ⟨t, ht, htk⟩ := (chainMask_testBit ts (u - 1)).mp hmem
        have htu : t = u := by have := (hts t ht).1; omega
        subst htu
        have h1 : setMembershipCheckW W (.num ((t : Int) * fvScaleZ)) (chainMask ts) = true := by
          simp only [setMembershipCheckW, hcm, Bool.true_and, fvNum, castU_scaled,
            Nat.shiftLeft_eq, one_mul]
          simpa using hne
        have h2 : ts.any (fun u => FV.eqb (.num ((t : Int) * fvScaleZ))
            (.num ((u : Int) * fvScaleZ))) = true :=
          List.any_eq_true.mpr ⟨t, ht, by rw [FV.eqb]; simp⟩
        rw [h1, h2]
      · have heq : 2 ^ (u - 1) &&& chainMask ts = 0 := by
          rw [Nat.two_pow_and]
          simp [hmem]
        have h1 : setMembershipCheckW W (.num ((u : Int) * fvScaleZ)) (chainMask ts) = false := by
          simp only [setMembershipCheckW, hcm, Bool.true_and, fvNum, castU_scaled,
            Nat.shiftLeft_eq, one_mul]
          simp [heq]
        have h2 : ts.any (fun t => FV.eqb (.num ((u : Int) * fvScaleZ))
            (.num ((t : Int) * fvScaleZ))) = false := by
          rw [List.any_eq_false]
          intro t ht
          simp only [FV.eqb, decide_eq_true_eq]
          intro hzz
          have hsne : fvScaleZ ≠ 0 := ne_of_gt hs
          have htu2 : (u : Int) = (t : Int) := by
            rw [← Int.mul_ediv_cancel (u : Int) hsne, hzz, Int.mul_ediv_cancel _ hsne]
          have htu : t = u := by exact_mod_cast htu2.symm
          subst htu
          exact hmem ((chainMask_testBit ts (t - 1)).mpr ⟨t, ht, rfl⟩)
        rw [h1, h2]
    · have hf : canMaskW W (.num z) = false := Bool.eq_false_iff.mpr hcm
      have h1 : setMembershipCheckW W (.num z) (chainMask ts) = false := by
        simp [setMembershipCheckW, hf]
      have h2 : ts.any (fun t => FV.eqb (.num z) (.num ((t : Int) * fvScaleZ))) = false := by
        rw [List.any_eq_false]
        intro t ht
        simp only [FV.eqb, decide_eq_true_eq]
        intro hz
        rw [hz, canMaskW_scaled] at hcm
        simp only [Bool.and_eq_true, decide_eq_true_eq] at hcm
        exact hcm ⟨(hts t ht).1, (hts t ht).2⟩
      rw [h1, h2]

theorem sameModeLoop_some (l : List NodeMode) (f : NodeMode) (sm : Bool) :
    sameModeLoop l (some f) sm
      = (sm && (l.filter (fun m => m ≠ .LEAF)).all (fun m => m = f)) := by
  induction l generalizing sm with
  | nil => simp [sameModeLoop]
  | cons m rest ih =>
    by_cases hm : m = NodeMode.LEAF
    · subst hm
      rw [sameModeLoop, if_pos rfl, ih]
      simp
    · rw [sameModeLoop, if_neg hm, ih]
      by_cases hf : m = f
      · subst hf
        simp [hm, List.filter_cons]
      · simp [hf, hm, List.filter_cons]

theorem sameModeLoop_none (l : List NodeMode) (sm : Bool) :
    sameModeLoop l none sm
      = (sm && match l.filter (fun m => m ≠ .LEAF) with
          | [] => true
          | f :: rest => rest.all (fun m => m = f)) := by
  induction l with
  | nil => simp [sameModeLoop]
  | cons m rest ih =>
    by_cases hm : m = NodeMode.LEAF
    · subst hm
      rw [sameModeLoop, if_pos rfl, ih]
      simp
    · rw [sameModeLoop, if_neg hm, sameModeLoop_some]
      simp [List.filter_cons, hm]

/-- `same_mode_` is true iff all non-leaf INPUT modes agree pairwise. -/
theorem sameModeCalc_iff (modes : List NodeMode) :
    sameModeCalc modes = true
      ↔ ∀ m ∈ modes, m ≠ .LEAF → ∀ m' ∈ modes, m' ≠ .LEAF → m = m' := by
  unfold sameModeCalc
  rw [sameModeLoop_none]
  simp only [Bool.true_and]
  constructor
  · intro h m hm hml m' hm' hml'
    have hmf : m ∈ modes.filter (fun x => x ≠ .LEAF) := by
      rw [List.mem_filter]
      exact ⟨hm, by simp [hml]⟩
    have hmf' : m' ∈ modes.filter (fun x => x ≠ .LEAF) := by
      rw [List.mem_filter]
      exact ⟨hm', by simp [hml']⟩
    cases hfl : modes.filter (fun x => x ≠ .LEAF) with
    | nil => rw [hfl] at hmf; simp at hmf
    | cons f rest =>
      rw [hfl] at h hmf hmf'
      simp only [List.all_eq_true, decide_eq_true_eq] at h
      have em : m = f := by
        rcases List.mem_cons.mp hmf with h1 | h1
        · exact h1
        · exact h m h1
      have em' : m' = f := by
        rcases List.mem_cons.mp hmf' with h1 | h1
        · exact h1
        · exact h m' h1
      rw [em, em']
  · intro h
    cases hfl : modes.filter (fun x => x ≠ .LEAF) with
    | nil => simp
    | cons f rest =>
      simp only [List.all_eq_true, decide_eq_true_eq]
      intro m hm
      have hmemf : f ∈ modes.filter (fun x => x ≠ .LEAF) := by
        rw [hfl]; exact List.mem_cons_self f rest
      have hmemm : m ∈ modes.filter (fun x => x ≠ .LEAF) := by
        rw [hfl]; exact List.mem_cons_of_mem f hm
      rw [List.mem_filter] at hmemf hmemm
      exact h m hmemm.1 (by simpa using hmemm.2) f hmemf.1 (by simpa using hmemf.2)


section ArrayHelpers
variable {α : Type _}

theorem getD_push_lt (a : Array α) (x d : α) {j : Nat} (h : j < a.size) :
    (a.push x).getD j d = a.getD j d := by
  simp [Array.getD_eq_get?, Array.getElem?_push, Nat.ne_of_lt h]

theorem getD_push_eq (a : Array α) (x d : α) : (a.push x).getD a.size d = x := by
  simp [Array.getD_eq_get?, Array.getElem?_push]

theorem getD_modify_ne (a : Array α) (i : Nat) (f : α → α) (d : α) {j : Nat} (h : i ≠ j) :
    (a.modify i f).getD j d = a.getD j d := by
  simp [Array.getD_eq_get?, Array.getElem?_modify, h]

theorem getD_modify_self (a : Array α) (i : Nat) (f : α → α) (d : α) (h : i < a.size) :
    (a.modify i f).getD i d = f (a.getD i d) := by
  simp [Array.getD_eq_get?, Array.getElem?_modify, Array.getElem?_lt _ h]

end ArrayHelpers

theorem except_bind_ok_iff {ε α β : Type} {x : Except ε α} {f : α → Except ε β} {b : β} :
    Except.bind x f = .ok b ↔ ∃ a, x = .ok a ∧ f a = .ok b := by
  cases x <;> simp [Except.bind]

theorem getD_modifyValue_mode (a : Array TreeNodeElement) (np : Nat) (g : Nat → Nat) :
    ((a.modify np (fun n =>
        { n with value_or_unique_weight := g n.value_or_unique_weight })).getD np default).mode
      = (a.getD np default).mode := by
  simp only [Array.getD_eq_get?, Array.getElem?_modify, if_pos rfl]
  cases a[np]? <;> simp

theorem pushNodeState_spec (p : PreIn) (i : Nat) (st : BuildState) :
    (pushNodeState p i st).nodes = st.nodes.push (mkCompiledNode p i) ∧
    (pushNodeState p i st).false_edges = st.false_edges := by
  unfold pushNodeState bumpMaxFeature
  split <;> exact ⟨rfl, rfl⟩

/-- Invariants of the fold loop: it only rewrites the bitmask of the node
at `node_pos`. -/
theorem foldChain_state (p : PreIn) (sf i np : Nat) :
    ∀ fuel fnid st,
      (foldChain p sf i np fuel fnid st).2.nodes.size = st.nodes.size ∧
      (foldChain p sf i np fuel fnid st).2.updated_mapping = st.updated_mapping ∧
      (foldChain p sf i np fuel fnid st).2.false_edges = st.false_edges ∧
      (∀ j, j ≠ np →
        (foldChain p sf i np fuel fnid st).2.nodes.getD j default = st.nodes.getD j default) ∧
      ((foldChain p sf i np fuel fnid st).2.nodes.getD np default).mode
        = (st.nodes.getD np default).mode ∧
      ((foldChain p sf i np fuel fnid st).2.nodes.getD np default).missingTrue
        = (st.nodes.getD np default).missingTrue := by
  intro fuel
  induction fuel with
  | zero => intro fnid st; exact ⟨rfl, rfl, rfl, fun j _ => rfl, rfl, rfl⟩
  | succ n ih =>
    intro fnid st
    rw [foldChain]
    split
    · obtain ⟨h1, h2, h3, h4, h5, h6⟩ := ih (p.falsenode_ids.getD fnid 0) { st with nodes := st.nodes.modify np (fun nd => { nd with value_or_unique_weight := updateThreshold (fvNum (f32AsFV (p.node_values.getD fnid 0))) nd.value_or_unique_weight }) }
      refine ⟨?_, h2, h3, ?_, ?_, ?_⟩
      · rw [h1]; simp
      · intro j hj
        rw [h4 j hj]
        simp only
        exact getD_modify_ne _ _ _ _ (fun hnp => hj hnp.symm)
      · rw [h5]
        exact getD_modifyValue_mode st.nodes np _
      · rw [h6]
        simp only [Array.getD_eq_get?, Array.getElem?_modify, if_pos rfl]
        cases st.nodes[np]? <;> simp
    · exact ⟨rfl, rfl, rfl, fun j _ => rfl, rfl, rfl⟩

/-- The build invariant established by `AddNodes`. -/
def addNodesInv (p : PreIn) (st st' : BuildState) : Prop :=
  st.nodes.size ≤ st'.nodes.size ∧
  (∀ j, j < st.nodes.size → st'.nodes.getD j default = st.nodes.getD j default) ∧
  (∀ e, e ∈ st.false_edges → e ∈ st'.false_edges) ∧
  (∀ e, e ∈ st'.false_edges → e ∈ st.false_edges ∨ e.2 = e.1 + 1) ∧
  (∀ j, st.nodes.size ≤ j → j < st'.nodes.size →
    (st'.nodes.getD j default).mode ≠ .LEAF → ∃ q, (j, q) ∈ st'.false_edges) ∧
  (∀ j, st.nodes.size ≤ j → j < st'.nodes.size →
    (st'.nodes.getD j default).missingTrue = true →
    ∃ k, k < p.nodes_missing_value_tracks_true.size ∧
      p.nodes_missing_value_tracks_true.getD k 0 = 1)

theorem addNodes_branch_tail (p : PreIn) (fuel : Nat) (tid : Int) (i : Nat) (st FS : BuildState)
    (ihf : ∀ i' tid' st₀ pos' st'', addNodes p fuel i' tid' st₀ = .ok (pos', st'') →
      addNodesInv p st₀ st'')
    (hFS1 : FS.nodes.size = st.nodes.size + 1)
    (hFS2 : FS.false_edges = st.false_edges)
    (hFS3 : ∀ j, j < st.nodes.size → FS.nodes.getD j default = st.nodes.getD j default)
    (hFS4 : (FS.nodes.getD st.nodes.size default).missingTrue = (mkCompiledNode p i).missingTrue)
    (F1 pos : Nat) (st' : BuildState)
    (h : Except.bind (addNodes p fuel F1 tid FS) (fun fres =>
          if fres.1 ≠ st.nodes.size + 1 then .error "False node must always be the next node."
          else Except.bind (addNodes p fuel (p.truenode_ids.getD i 0) tid
              { fres.2 with false_edges := (st.nodes.size, fres.1) :: fres.2.false_edges })
            (fun tres => .ok (st.nodes.size, { tres.2 with
              nodes := tres.2.nodes.modify st.nodes.size
                (fun n => { n with truenode := tres.1 }) })))
        = .ok (pos, st')) :
    addNodesInv p st st' := by
  rw [except_bind_ok_iff] at h
  obtain ⟨⟨fb, st3⟩, hf, h⟩ := h
  by_cases h5 : fb ≠ st.nodes.size + 1
  · rw [if_pos h5] at h; exact absurd h (by simp)
  · rw [if_neg h5] at h
    push_neg at h5
    rw [except_bind_ok_iff] at h
    obtain ⟨⟨tb, st5⟩, ht, h⟩ := h
    simp only [Except.ok.injEq, Prod.mk.injEq] at h
    obtain ⟨rfl, rfl⟩ := h
    obtain ⟨if1, if2, if3, if4, if5, if6⟩ := ihf _ _ _ _ _ hf
    obtain ⟨it1, it2, it3, it4, it5, it6⟩ := ihf _ _ _ _ _ ht
    dsimp only at it1 it2 it3 it4 it5 it6
    set np := st.nodes.size with hnp
    -- basic size chains
    have hs3 : np + 1 ≤ st3.nodes.size := by omega
    have hs5 : st3.nodes.size ≤ st5.nodes.size := it1
    have hnp5 : np < st5.nodes.size := by omega
    -- final nodes getD characterization
    have hfin_ne : ∀ j, j ≠ np →
        (st5.nodes.modify np (fun n => { n with truenode := tb })).getD j default
          = st5.nodes.getD j default := by
      intro j hj
      exact getD_modify_ne _ _ _ _ (fun hh => hj hh.symm)
    have hfin_np : (st5.nodes.modify np (fun n => { n with truenode := tb })).getD np default
        = { st5.nodes.getD np default with truenode := tb } :=
      getD_modify_self _ _ _ _ hnp5
    refine ⟨?_, ?_, ?_, ?_, ?_, ?_⟩
    · simp only [Array.size_modify]; omega
    · intro j hj
      rw [hfin_ne j (by omega), it2 j (by omega), if2 j (by omega), hFS3 j hj]
    · intro e he
      have h1 : e ∈ st3.false_edges := if3 e (by rw [hFS2]; exact he)
      have h2 : e ∈ (np, fb) :: st3.false_edges := List.mem_cons_of_mem _ h1
      exact it3 e h2
    · intro e he
      rcases it4 e he with h1 | h1
      · rcases List.mem_cons.mp h1 with rfl | h2
        · right; exact h5
        · rcases if4 e h2 with h3 | h3
          · left; rw [← hFS2]; exact h3
          · right; exact h3
      · right; exact h1
    · intro j hj1 hj2 hmode
      simp only [Array.size_modify] at hj2
      by_cases hj : j = np
      · subst hj
        have : (np, fb) ∈ (np, fb) :: st3.false_edges := List.mem_cons_self _ _
        exact ⟨fb, it3 _ this⟩
      · rw [hfin_ne j hj] at hmode
        by_cases hj3 : j < st3.nodes.size
        · rw [it2 j (by omega)] at hmode
          obtain ⟨q, hq⟩ := if5 j (by omega) hj3 hmode
          exact ⟨q, it3 _ (List.mem_cons_of_mem _ hq)⟩
        · obtain ⟨q, hq⟩ := it5 j (by omega) hj2 hmode
          exact ⟨q, hq⟩
    · intro j hj1 hj2 hmiss
      simp only [Array.size_modify] at hj2
      by_cases hj : j = np
      · subst hj
        rw [hfin_np] at hmiss
        rw [it2 np (by omega), if2 np (by omega), hFS4] at hmiss
        unfold mkCompiledNode at hmiss
        simp only [Bool.and_eq_true, decide_eq_true_eq] at hmiss
        exact ⟨i, hmiss.1, hmiss.2⟩
      · rw [hfin_ne j hj] at hmiss
        by_cases hj3 : j < st3.nodes.size
        · rw [it2 j (by omega)] at hmiss
          exact if6 j (by omega) hj3 hmiss
        · exact it6 j (by omega) hj2 hmiss



theorem addNodes_invariant (p : PreIn) : ∀ fuel i tid st pos st',
    addNodes p fuel i tid st = .ok (pos, st') → addNodesInv p st st' := by
  intro fuel
  induction fuel with
  | zero => intro i tid st pos st' h; exact absurd h (by simp [addNodes])
  | succ fuel ih =>
    intro i tid st pos st' h
    rw [addNodes] at h
    by_cases h1 : (p.node_tree_ids.getD i (0, 0)).1 ≠ tid
    · rw [if_pos h1] at h; exact absurd h (by simp)
    · rw [if_neg h1] at h
      by_cases h2 : st.updated_mapping.getD i 0 ≠ 0
      · rw [if_pos h2] at h
        simp only [Except.ok.injEq, Prod.mk.injEq] at h
        obtain ⟨-, rfl⟩ := h
        exact ⟨le_refl _, fun j _ => rfl, fun e he => he, fun e he => Or.inl he,
          fun j hj1 hj2 _ => absurd hj2 (by omega),
          fun j hj1 hj2 _ => absurd hj2 (by omega)⟩
      · rw [if_neg h2] at h
        dsimp only at h
        obtain ⟨hpn, hpe⟩ := pushNodeState_spec p i st
        by_cases h3 : (mkCompiledNode p i).mode ≠ NodeMode.LEAF
        · rw [if_pos h3] at h
          by_cases h4 : (mkCompiledNode p i).mode = NodeMode.BRANCH_MEMBER ∧
              (mkCompiledNode p i).missingTrue = false
          · rw [if_pos h4] at h
            obtain ⟨hc1, hc2, hc3, hc4, hc5, hc6⟩ := foldChain_state p fuel i st.nodes.size fuel
              (p.falsenode_ids.getD i 0) (pushNodeState p i st)
            refine addNodes_branch_tail p fuel tid i st _ ih ?_ ?_ ?_ ?_ _ pos st' h
            · rw [hc1, hpn]; simp
            · rw [hc3, hpe]
            · intro j hj
              rw [hc4 j (by omega), hpn]
              exact getD_push_lt _ _ _ hj
            · rw [hc6, hpn, getD_push_eq]
          · rw [if_neg h4] at h
            refine addNodes_branch_tail p fuel tid i st _ ih ?_ ?_ ?_ ?_ _ pos st' h
            · rw [hpn]; simp
            · exact hpe
            · intro j hj
              rw [hpn]
              exact getD_push_lt _ _ _ hj
            · rw [hpn, getD_push_eq]
        · rw [if_neg h3] at h
          simp only [Except.ok.injEq, Prod.mk.injEq] at h
          obtain ⟨rfl, rfl⟩ := h
          push_neg at h3
          have hsize : (pushNodeState p i st).nodes.size = st.nodes.size + 1 := by
            rw [hpn]; simp
          refine ⟨?_, ?_, ?_, ?_, ?_, ?_⟩
          · simp only [Array.size_modify]; omega
          · intro j hj
            rw [getD_modify_ne _ _ _ _ (by omega), hpn]
            exact getD_push_lt _ _ _ hj
          · intro e he
            rw [hpe]; exact he
          · intro e he
            rw [hpe] at he; exact Or.inl he
          · intro j hj1 hj2 hmode
            simp only [Array.size_modify] at hj2
            rw [hsize] at hj2
            have hj : j = st.nodes.size := by omega
            subst hj
            rw [getD_modify_self _ _ _ _ (by omega), hpn, getD_push_eq] at hmode
            simp only at hmode
            exact absurd h3 hmode
          · intro j hj1 hj2 hmiss
            simp only [Array.size_modify] at hj2
            rw [hsize] at hj2
            have hj : j = st.nodes.size := by omega
            subst hj
            rw [getD_modify_self _ _ _ _ (by omega), hpn, getD_push_eq] at hmiss
            simp only at hmiss
            unfold mkCompiledNode at hmiss
            simp only [Bool.and_eq_true, decide_eq_true_eq] at hmiss
            exact ⟨i, hmiss.1, hmiss.2⟩



theorem addNodesInv_refl (p : PreIn) (st : BuildState) : addNodesInv p st st :=
  ⟨le_refl _, fun _ _ => rfl, fun _ he => he, fun _ he => Or.inl he,
    fun j h1 h2 _ => absurd h2 (by omega), fun j h1 h2 _ => absurd h2 (by omega)⟩

theorem addNodesInv_trans (p : PreIn) {a b c : BuildState}
    (hab : addNodesInv p a b) (hbc : addNodesInv p b c) : addNodesInv p a c := by
  obtain ⟨h1, h2, h3, h4, h5, h6⟩ := hab
  obtain ⟨g1, g2, g3, g4, g5, g6⟩ := hbc
  refine ⟨le_trans h1 g1, ?_, fun e he => g3 e (h3 e he), ?_, ?_, ?_⟩
  · intro j hj
    rw [g2 j (by omega), h2 j hj]
  · intro e he
    rcases g4 e he with hh | hh
    · exact h4 e hh
    · exact Or.inr hh
  · intro j hj1 hj2 hmode
    by_cases hj : j < b.nodes.size
    · rw [g2 j hj] at hmode
      obtain ⟨q, hq⟩ := h5 j hj1 hj hmode
      exact ⟨q, g3 _ hq⟩
    · exact g5 j (by omega) hj2 hmode
  · intro j hj1 hj2 hmiss
    by_cases hj : j < b.nodes.size
    · rw [g2 j hj] at hmiss
      exact h6 j hj1 hj hmiss
    · exact g6 j (by omega) hj2 hmiss

theorem rootsLoop_invariant (p : PreIn) (fuel : Nat) :
    ∀ rem i prev st roots st' roots',
      rootsLoop p fuel rem i prev st roots = .ok (st', roots') →
      addNodesInv p st st' := by
  intro rem
  induction rem with
  | zero =>
    intro i prev st roots st' roots' h
    rw [rootsLoop] at h
    simp only [Except.ok.injEq, Prod.mk.injEq] at h
    obtain ⟨rfl, -⟩ := h
    exact addNodesInv_refl p st
  | succ rem ih =>
    intro i prev st roots st' roots' h
    rw [rootsLoop] at h
    split at h
    · exact ih _ _ _ _ _ _ h
    · split at h
      · exact absurd h (by simp)
      case h_2 rpos st2 heq =>
        exact addNodesInv_trans p (addNodes_invariant p fuel i _ st rpos st2 heq)
          (ih _ _ _ _ _ _ h)

section ArrayHelpers2
variable {α : Type _}

theorem getD_setD_ne (a : Array α) (i : Nat) (v d : α) {j : Nat} (h : i ≠ j) :
    (a.setD i v).getD j d = a.getD j d := by
  unfold Array.setD
  split
  · simp only [Array.getD_eq_get?]
    rw [Array.getElem?_set_ne _ _ _ h]
  · rfl

theorem getD_setD_self (a : Array α) (i : Nat) (v d : α) :
    (a.setD i v).getD i d = if i < a.size then v else d := by
  by_cases h : i < a.size
  · rw [if_pos h]
    simp [Array.getD_eq_get?, Array.getElem?_setD_eq a h v]
  · rw [if_neg h]
    unfold Array.setD
    rw [dif_neg h]
    simp [Array.getD, h]

end ArrayHelpers2

/-- Weight attachment neither resizes the node array nor changes any
node's mode or missing-track bit. -/
theorem attachWeights_modes (a : EnsembleAttrs) (ids : List (Int × Int)) (um : Array Nat) :
    ∀ lst nodes ws nodes' ws',
      attachWeights a ids um lst nodes ws = .ok (nodes', ws') →
      nodes'.size = nodes.size ∧
      (∀ j, (nodes'.getD j default).mode = (nodes.getD j default).mode) ∧
      (∀ j, (nodes'.getD j default).missingTrue = (nodes.getD j default).missingTrue) := by
  intro lst
  induction lst with
  | nil =>
    intro nodes ws nodes' ws' h
    rw [attachWeights] at h
    simp only [Except.ok.injEq, Prod.mk.injEq] at h
    obtain ⟨rfl, -⟩ := h
    exact ⟨rfl, fun _ => rfl, fun _ => rfl⟩
  | cons hd rest ih =>
    intro nodes ws nodes' ws' h
    rw [attachWeights] at h
    split at h
    · exact absurd h (by simp)
    case h_2 found hfound =>
      dsimp only at h
      by_cases hleaf : (nodes.getD (um.getD found 0) default).mode ≠ NodeMode.LEAF
      · rw [if_pos hleaf] at h
        exact ih _ _ _ _ h
      · rw [if_neg hleaf] at h
        obtain ⟨g1, g2, g3⟩ := ih _ _ _ _ h
        set li := um.getD found 0 with hli
        refine ⟨by rw [g1]; simp, ?_, ?_⟩
        · intro j
          rw [g2 j]
          by_cases hj : li = j
          · subst hj
            rw [getD_setD_self]
            split
            · dsimp only
              split <;> rfl
            · rfl
          · rw [getD_setD_ne _ _ _ _ hj]
        · intro j
          rw [g3 j]
          by_cases hj : li = j
          · subst hj
            rw [getD_setD_self]
            split
            · dsimp only
              split <;> rfl
            · rfl
          · rw [getD_setD_ne _ _ _ _ hj]



/-- Success shape of `initModel`: the forest's fields in terms of the
pipeline stages. -/
theorem initModel_ok (a : EnsembleAttrs) (f : Forest) (h : initModel a = .ok f) :
    f.same_mode = sameModeCalc a.nodes_modes ∧
    f.has_missing_tracks = a.nodes_missing_value_tracks_true.any (· ≠ 0) ∧
    ∃ (p : PreIn) (st : BuildState) (roots : List Nat) (nodes : Array TreeNodeElement)
      (weights : List (Int × Nat)),
      p.nodes_missing_value_tracks_true = a.nodes_missing_value_tracks_true.toArray ∧
      rootsLoop p (a.nodes_treeids.length + 2) a.nodes_treeids.length 0 none
        { updated_mapping := Array.mkArray a.nodes_treeids.length 0 } [] = .ok (st, roots) ∧
      attachWeights a (List.zip a.nodes_treeids a.nodes_nodeids) st.updated_mapping
        (sortIndices (List.zip (List.zip a.target_class_treeids a.target_class_nodeids)
          (List.range (List.zip a.target_class_treeids a.target_class_nodeids).length)))
        st.nodes [] = .ok (nodes, weights) ∧
      f.nodes = nodes ∧ f.false_edges = st.false_edges := by
  unfold initModel at h
  split at h
  · exact absurd h (by simp)
  split at h
  · exact absurd h (by simp)
  dsimp only at h
  split at h
  · exact absurd h (by simp)
  split at h
  · exact absurd h (by simp)
  case h_2 tis fis heqres =>
    split at h
    · exact absurd h (by simp)
    case h_2 stv rootsv heqroots =>
      split at h
      · exact absurd h (by simp)
      case h_2 nodesv weightsv heqaw =>
        simp only [Except.ok.injEq] at h
        subst h
        exact ⟨rfl, rfl, _, stv, rootsv, nodesv, weightsv, rfl, heqroots, heqaw, rfl, rfl⟩



/-! ## Claim theorems for the tree compiler, evaluator and Cast kernel -/


theorem getD_toArray {α : Type _} (l : List α) (k : Nat) (d : α) :
    l.toArray.getD k d = l.getD k d := by
  simp [Array.getD_eq_get?, List.getD]

theorem size_toArray' {α : Type _} (l : List α) : l.toArray.size = l.length := by simp

/-- C1 -/
theorem c1_false_branch_next (a : EnsembleAttrs) (f : Forest) (h : initModel a = .ok f) :
    (∀ e ∈ f.false_edges, e.2 = e.1 + 1) ∧
    (∀ j, j < f.nodes.size → (f.nodes.getD j default).mode ≠ .LEAF →
      (j, j + 1) ∈ f.false_edges) := by
  obtain ⟨-, -, p, st, roots, nodes, weights, -, hroots, hattach, hfn, hfe⟩ := initModel_ok a f h
  obtain ⟨r1, r2, r3, r4, r5, r6⟩ := rootsLoop_invariant p _ _ _ _ _ _ _ _ hroots
  obtain ⟨a1, a2, a3⟩ := attachWeights_modes a _ _ _ _ _ _ _ hattach
  constructor
  · intro e he
    rw [hfe] at he
    rcases r4 e he with hh | hh
    · simp at hh
    · exact hh
  · intro j hj hmode
    rw [hfn, a1] at hj
    rw [hfn, a2 j] at hmode
    obtain ⟨q, hq⟩ := r5 j (Nat.zero_le j) hj hmode
    have hgood : q = j + 1 := by
      rcases r4 _ hq with hh | hh
      · simp at hh
      · exact hh
    rw [hfe, ← hgood]
    exact hq

theorem c1_false_branch_next_witness :
    (∀ e ∈ chainForest.false_edges, e.2 = e.1 + 1) ∧
    (∀ j, j < chainForest.nodes.size → (chainForest.nodes.getD j default).mode ≠ .LEAF →
      (j, j + 1) ∈ chainForest.false_edges) :=
  c1_false_branch_next chainAttrs chainForest rfl

/-- C7 counterexample -/
theorem c7_mixed_modes_counterexample :
    initModel mixedAttrs = .ok mixedForest ∧
    mixedForest.same_mode = true ∧
    (mixedForest.nodes.getD 0 default).mode = .BRANCH_EQ ∧
    (mixedForest.nodes.getD 1 default).mode = .BRANCH_MEMBER ∧
    (mixedForest.nodes.getD 0 default).mode ≠ .LEAF ∧
    (mixedForest.nodes.getD 1 default).mode ≠ .LEAF ∧
    NodeMode.BRANCH_EQ ≠ NodeMode.BRANCH_MEMBER := by
  refine ⟨rfl, ?_, ?_, ?_, ?_, ?_, ?_⟩ <;> decide

/-- C7 amended -/
theorem c7_same_mode_from_input (a : EnsembleAttrs) (f : Forest) (h : initModel a = .ok f) :
    f.same_mode = true ↔
      ∀ m ∈ a.nodes_modes, m ≠ .LEAF → ∀ m' ∈ a.nodes_modes, m' ≠ .LEAF → m = m' := by
  obtain ⟨hsm, -⟩ := initModel_ok a f h
  rw [hsm]
  exact sameModeCalc_iff a.nodes_modes

theorem c7_same_mode_from_input_witness : missingStumpForest.same_mode = true :=
  (c7_same_mode_from_input missingStumpAttrs missingStumpForest rfl).mpr (by decide)



theorem hotTakeBranch_missing (rootMode : NodeMode) (node : TreeNodeElement) (val : FV)
    (hm : node.missingTrue = true) (hn : val.isNaN = true) :
    hotTakeBranch rootMode true node val = true := by
  cases rootMode <;> simp [hotTakeBranch, hm, hn]

theorem mixedTakeBranch_missing (node : TreeNodeElement) (val : FV)
    (hm : node.missingTrue = true) (hn : val.isNaN = true) :
    mixedTakeBranch node val = true := by
  simp [mixedTakeBranch, hm, hn]

/-- C8 -/
theorem c8_missing_nan_takes_true :
    (∀ (rootMode : NodeMode) (node : TreeNodeElement) (val : FV),
      node.missingTrue = true → val.isNaN = true →
      hotTakeBranch rootMode true node val = true ∧ mixedTakeBranch node val = true) ∧
    (∀ (nodes : Array TreeNodeElement) (x : List FV) (rootMode : NodeMode) (fuel pos : Nat),
      (nodes.getD pos default).mode ≠ .LEAF →
      (nodes.getD pos default).missingTrue = true →
      (x.getD (nodes.getD pos default).feature_id.toNat .nan).isNaN = true →
      walkSame nodes x rootMode true (fuel + 1) pos
          = walkSame nodes x rootMode true fuel (nodes.getD pos default).truenode ∧
        walkMixed nodes x (fuel + 1) pos
          = walkMixed nodes x fuel (nodes.getD pos default).truenode) ∧
    (∀ (a : EnsembleAttrs) (f : Forest), initModel a = .ok f → ∀ j, j < f.nodes.size →
      (f.nodes.getD j default).missingTrue = true → f.has_missing_tracks = true) ∧
    (initModel missingStumpAttrs = .ok missingStumpForest ∧
      missingStumpForest.has_missing_tracks = true ∧
      (missingStumpForest.nodes.getD 0 default).missingTrue = true ∧
      evalSumSingleTarget missingStumpForest [.nan] = .num fvScaleZ ∧
      f32AsFV 0x3F800000 = .num fvScaleZ) := by
  refine ⟨?_, ?_, ?_, rfl, by decide, by decide, by decide, by decide⟩
  · intro rootMode node val hm hn
    constructor
    · cases rootMode <;> simp [hotTakeBranch, hm, hn]
    · simp [mixedTakeBranch, hm, hn]
  · intro nodes x rootMode fuel pos hmode hm hn
    have hhot : hotTakeBranch rootMode true (nodes.getD pos default)
        (x.getD (nodes.getD pos default).feature_id.toNat .nan) = true :=
      hotTakeBranch_missing rootMode _ _ hm hn
    have hmix : mixedTakeBranch (nodes.getD pos default)
        (x.getD (nodes.getD pos default).feature_id.toNat .nan) = true :=
      mixedTakeBranch_missing _ _ hm hn
    constructor
    · conv_lhs => rw [walkSame]
      simp only [if_neg hmode, hhot, if_true]
    · conv_lhs => rw [walkMixed]
      simp only [if_neg hmode, hmix, if_true]
  · intro a f h j hj hmiss
    obtain ⟨-, hhm, p, st, roots, nodes, weights, htracks, hroots, hattach, hfn, -⟩ :=
      initModel_ok a f h
    rw [hfn] at hj hmiss
    obtain ⟨a1, a2, a3⟩ := attachWeights_modes a _ _ _ _ _ _ _ hattach
    rw [a1] at hj
    rw [a3 j] at hmiss
    obtain ⟨r1, r2, r3, r4, r5, r6⟩ := rootsLoop_invariant p _ _ _ _ _ _ _ _ hroots
    obtain ⟨k, hk1, hk2⟩ := r6 j (Nat.zero_le j) hj hmiss
    rw [htracks] at hk1 hk2
    rw [getD_toArray] at hk2
    rw [size_toArray'] at hk1
    rw [hhm, List.any_eq_true]
    refine ⟨a.nodes_missing_value_tracks_true.getD k 0, ?_, ?_⟩
    · rw [List.getD_eq_getElem _ _ hk1]
      exact List.getElem_mem hk1
    · rw [hk2]
      decide



theorem c8_missing_nan_takes_true_witness :
    hotTakeBranch .BRANCH_LEQ true { mode := .BRANCH_LEQ, missingTrue := true } .nan = true ∧
    mixedTakeBranch { mode := .BRANCH_LEQ, missingTrue := true } .nan = true :=
  c8_missing_nan_takes_true.1 .BRANCH_LEQ { mode := .BRANCH_LEQ, missingTrue := true } .nan
    rfl rfl

/-- C2 -/
theorem c2_categorical_fold :
    (∀ (W : Nat) (ts : List Nat) (v : FV), (∀ t ∈ ts, 1 ≤ t ∧ t ≤ W) →
      setMembershipCheckW W v (chainMask ts)
        = ts.any (fun t => FV.eqb v (.num ((t : Int) * fvScaleZ)))) ∧
    initModel chainAttrs = .ok chainForest ∧
    (chainForest.nodes.getD 0 default).mode = .BRANCH_MEMBER ∧
    (chainForest.nodes.getD 0 default).value_or_unique_weight = 21 ∧
    chainMask [1, 3, 5] = 21 ∧
    (chainForest.nodes.toList.filter (fun n => n.mode ≠ .LEAF)).length = 1 ∧
    evalSumSingleTarget chainForest [.num (3 * fvScaleZ)] = .num fvScaleZ ∧
    evalSumSingleTarget chainForest [.num (2 * fvScaleZ)] = .num (-fvScaleZ) ∧
    evalSumSingleTarget chainForest [.num (5 * fvScaleZ)] = .num fvScaleZ := by
  refine ⟨setMembership_chain, rfl, ?_, ?_, ?_, ?_, ?_, ?_, ?_⟩ <;> decide

theorem c2_categorical_fold_witness :
    setMembershipCheckW 32 (.num (3 * fvScaleZ)) (chainMask [1, 3, 5])
      = [1, 3, 5].any (fun t => FV.eqb (.num (3 * fvScaleZ)) (.num ((t : Int) * fvScaleZ))) :=
  c2_categorical_fold.1 32 [1, 3, 5] (.num (3 * fvScaleZ)) (by decide)

theorem foldChain_noop (p : PreIn) (sf i np fnid : Nat) (st : BuildState)
    (h : chainFoldCond p sf i np fnid st = false) :
    ∀ fuel, foldChain p sf i np fuel fnid st = (fnid, st) := by
  intro fuel
  cases fuel with
  | zero => rfl
  | succ n => rw [foldChain, if_neg (by simp [h])]

/-- C10 -/
theorem c10_single_eq_rewrite :
    (∀ (p : PreIn) (fuel : Nat) (i : Nat) (tid : Int) (st : BuildState) (pos : Nat)
      (st' : BuildState),
      addNodes p fuel i tid st = .ok (pos, st') →
      p.cmodes.getD i .LEAF = .BRANCH_EQ →
      canMask (f32AsFV (p.node_values.getD i 0)) = true →
      st.updated_mapping.getD i 0 = 0 →
      chainFoldCond p (fuel - 1) i st.nodes.size (p.falsenode_ids.getD i 0)
        (pushNodeState p i st) = false →
      pos = st.nodes.size ∧
      (st'.nodes.getD pos default).mode = .BRANCH_MEMBER ∧
      (st'.nodes.getD pos default).value_or_unique_weight
        = updateThreshold (fvNum (f32AsFV (p.node_values.getD i 0))) 0) ∧
    (∀ z : Int, updateThreshold z 0 = 1 <<< (castU z - 1)) ∧
    (∀ (W t : Nat) (v : FV), 1 ≤ t → t ≤ W →
      setMembershipCheckW W v (chainMask [t]) = FV.eqb v (.num ((t : Int) * fvScaleZ))) := by
  refine ⟨?_, ?_, ?_⟩
  · intro p fuel i tid st pos st' h hm hc hum hnofold
    cases fuel with
    | zero => exact absurd h (by simp [addNodes])
    | succ fl =>
      rw [addNodes] at h
      by_cases htid : (p.node_tree_ids.getD i (0, 0)).1 ≠ tid
      · rw [if_pos htid] at h; exact absurd h (by simp)
      rw [if_neg htid] at h
      rw [if_neg (by simp [hum])] at h
      dsimp only at h
      have hnode : (mkCompiledNode p i).mode = .BRANCH_MEMBER ∧
          (mkCompiledNode p i).value_or_unique_weight
            = updateThreshold (fvNum (f32AsFV (p.node_values.getD i 0))) 0 := by
        unfold mkCompiledNode
        dsimp only
        rw [if_pos ⟨hm, hc⟩]
        exact ⟨rfl, rfl⟩
      rw [if_pos (by rw [hnode.1]; simp)] at h
      have hnofold' : chainFoldCond p fl i st.nodes.size (p.falsenode_ids.getD i 0)
          (pushNodeState p i st) = false := by simpa using hnofold
      have hpair : (if (mkCompiledNode p i).mode = NodeMode.BRANCH_MEMBER ∧
            (mkCompiledNode p i).missingTrue = false then
          foldChain p fl i st.nodes.size fl (p.falsenode_ids.getD i 0) (pushNodeState p i st)
          else (p.falsenode_ids.getD i 0, pushNodeState p i st))
          = (p.falsenode_ids.getD i 0, pushNodeState p i st) := by
        by_cases hmiss : (mkCompiledNode p i).missingTrue = false
        · rw [if_pos ⟨hnode.1, hmiss⟩]
          exact foldChain_noop p fl i st.nodes.size (p.falsenode_ids.getD i 0)
            (pushNodeState p i st) hnofold' fl
        · rw [if_neg (fun hcc => hmiss hcc.2)]
      rw [hpair] at h
      dsimp only at h
      rw [except_bind_ok_iff] at h
      obtain ⟨⟨fb, st3⟩, hf, h⟩ := h
      by_cases h5 : fb ≠ st.nodes.size + 1
      · rw [if_pos h5] at h; exact absurd h (by simp)
      rw [if_neg h5] at h
      rw [except_bind_ok_iff] at h
      obtain ⟨⟨tb, st5⟩, ht, h⟩ := h
      simp only [Except.ok.injEq, Prod.mk.injEq] at h
      obtain ⟨rfl, rfl⟩ := h
      obtain ⟨if1, if2, -, -, -, -⟩ := addNodes_invariant p fl _ _ _ _ _ hf
      obtain ⟨it1, it2, -, -, -, -⟩ := addNodes_invariant p fl _ _ _ _ _ ht
      dsimp only at it1 it2
      obtain ⟨hpn, -⟩ := pushNodeState_spec p i st
      have hs2 : (pushNodeState p i st).nodes.size = st.nodes.size + 1 := by rw [hpn]; simp
      have hlt5 : st.nodes.size < st5.nodes.size := by omega
      have hchain : (st5.nodes.getD st.nodes.size default)
          = (st.nodes.push (mkCompiledNode p i)).getD st.nodes.size default := by
        rw [it2 _ (by omega), if2 _ (by omega), hpn]
      refine ⟨rfl, ?_, ?_⟩
      · rw [getD_modify_self _ _ _ _ hlt5]
        show (st5.nodes.getD st.nodes.size default).mode = NodeMode.BRANCH_MEMBER
        rw [hchain, getD_push_eq]
        exact hnode.1
      · rw [getD_modify_self _ _ _ _ hlt5]
        show (st5.nodes.getD st.nodes.size default).value_or_unique_weight
          = updateThreshold (fvNum (f32AsFV (p.node_values.getD i 0))) 0
        rw [hchain, getD_push_eq]
        exact hnode.2
  · intro z
    simp [updateThreshold]
  · intro W t v h1 h2
    have := setMembership_chain W [t] v (by intro u hu; simp at hu; subst hu; exact ⟨h1, h2⟩)
    rw [this]
    simp

theorem c10_single_eq_rewrite_witness :
    (singleEqRes.1 = singleEqSt0.nodes.size ∧
      (singleEqRes.2.nodes.getD singleEqRes.1 default).mode = .BRANCH_MEMBER ∧
      (singleEqRes.2.nodes.getD singleEqRes.1 default).value_or_unique_weight
        = updateThreshold (fvNum (f32AsFV (singleEqPre.node_values.getD 0 0))) 0) ∧
    updateThreshold (2 * fvScaleZ) 0 = 1 <<< (castU (2 * fvScaleZ) - 1) ∧
    setMembershipCheckW 32 (.num (2 * fvScaleZ)) (chainMask [2])
      = FV.eqb (.num (2 * fvScaleZ)) (.num (((2 : Nat) : Int) * fvScaleZ)) :=
  ⟨c10_single_eq_rewrite.1 singleEqPre 5 0 0 singleEqSt0 singleEqRes.1 singleEqRes.2 rfl
      (by decide) (by decide) (by decide) (by decide),
   c10_single_eq_rewrite.2.1 (2 * fvScaleZ),
   c10_single_eq_rewrite.2.2 32 2 (.num (2 * fvScaleZ)) (by decide) (by decide)⟩


/-- C9: the `saturate` attribute is accepted exactly for the four 8-bit
float destination types, defaults to saturating (true) when absent, and
`to` itself is mandatory. -/
theorem c9_cast_saturate_gate : ∀ (dst s : Int),
    (castCtor (some dst) (some s) =
      if dst = FLOAT8E4M3FN ∨ dst = FLOAT8E4M3FNUZ ∨ dst = FLOAT8E5M2 ∨ dst = FLOAT8E5M2FNUZ
      then .ok { to_ := dst, saturate_ := s = 1 }
      else .error "Parameter saturate is only used for cast to float 8 types.") ∧
    castCtor (some dst) none = .ok { to_ := dst, saturate_ := true } ∧
    castCtor none (some s) = .error "Attribute to is not set." := by
  intro dst s
  refine ⟨?_, rfl, rfl⟩
  show (if dst ≠ FLOAT8E4M3FN ∧ dst ≠ FLOAT8E4M3FNUZ ∧ dst ≠ FLOAT8E5M2 ∧ dst ≠ FLOAT8E5M2FNUZ
      then (.error "Parameter saturate is only used for cast to float 8 types."
        : Except String CastKernel)
      else .ok { to_ := dst, saturate_ := s = 1 }) = _
  by_cases h : dst = FLOAT8E4M3FN ∨ dst = FLOAT8E4M3FNUZ ∨ dst = FLOAT8E5M2 ∨ dst = FLOAT8E5M2FNUZ
  · rw [if_pos h, if_neg]
    tauto
  · rw [if_neg h, if_pos]
    tauto

end OrtSpec
